import Mathlib

set_option maxRecDepth 10000

/-!
Verification of the deleted-core-document-version scrubber.

The model below is a shallow embedding of the scrubbing routine
(`scrubDeletedCoreDocumentVersionsCheck` and the helper `scrubDocument`).
The relational metadata store is modelled as lists of rows, the blob store
as a list of object names, and the SQL queries as the corresponding list
operations over those rows.  External collaborators are modelled by an
environment: the configuration variables, the blake3 hex digest used to
derive blob paths (an opaque function of the document id), and a fault
model for per-object blob deletion (`deleteFails` says which delete calls
reject).

Concurrency model.  A batch (chunk) of up to 32 units is dispatched with
`Promise.all(chunk.map (d) => scrubDocument(...))`.  Under the JavaScript
event loop the synchronous prefix of every unit of the chunk — the two
environment-variable checks and the dedup-set membership test — runs
before any unit's first awaited continuation, because the `seen` set is
only extended after several awaits, at the very end of a successful unit.
The awaited remainders interleave nondeterministically; we fix the
admissible interleaving in which they run to completion one after another
in chunk order.  A rejection inside a chunk makes `Promise.all` reject
(the run then throws: later chunks are not processed and no success
report is issued), while the sibling promises of the same chunk still run
to completion.  The model therefore processes a chunk in two phases:
first every unit's synchronous check, against the dedup set as of chunk
start, then every remaining unit body sequentially.
-/

namespace Dust

/-- One row of the `data_sources_documents` table, with the columns the
scrubber reads (`SELECT * ... WHERE status = 'deleted'`). -/
structure DocRow where
  id : Nat
  created : Nat
  data_source : Nat
  document_id : String
  hash : String
  status : String
deriving Repr, DecidableEq

/-- One row of the `data_sources` table, with the columns the scrubber
reads. -/
structure DataSourceRow where
  id : Nat
  project : Nat
  internal_id : String
deriving Repr, DecidableEq

/-- The two stores the scrubber reconciles: the relational metadata store
(documents and sources tables) and the blob store (a set of object
names in the bucket). -/
structure St where
  docs : List DocRow
  sources : List DataSourceRow
  blobs : List String
deriving Repr, DecidableEq

/-- The three environment variables the routine reads. -/
structure Config where
  CORE_DATABASE_URI : Option String
  SERVICE_ACCOUNT : Option String
  DUST_DATA_SOURCES_BUCKET : Option String
deriving Repr, DecidableEq

/-- External collaborators: configuration, the blake3 hex digest applied
to document ids when deriving blob paths, and the fault model for
per-object blob deletion (`deleteFails f = true` means `f.delete()`
rejects). -/
structure Env where
  cfg : Config
  digest : String → String
  deleteFails : String → Bool

/-- Store operations a run can issue, recorded per unit. -/
inductive Op where
  | liveQuery (data_source : Nat) (document_id : String) (hash : String) (deletedAt : Nat)
  | sourceQuery (data_source : Nat)
  | blobList (pfx : String)
  | blobDelete (name : String)
  | purge (data_source : Nat) (document_id : String) (hash : String)
deriving Repr, DecidableEq

/-- Errors a single unit can raise (thrown inside `scrubDocument`). -/
inductive UnitErr where
  | envBucket
  | envServiceAccount
  | sourceNotFound (data_source : Nat)
  | deleteFailed (name : String)
deriving Repr, DecidableEq

/-- Outcome of one unit: skipped as within-run duplicate, skipped because
a live version with the same hash exists, fully purged (returned
`true`), or failed. -/
inductive UnitRes where
  | skipDup
  | skipLive
  | purged
  | failed (e : UnitErr)
deriving Repr, DecidableEq

/-- The dedup key of a unit: `` `${data_source}-${document_id}-${hash}` ``. -/
def uidStr (data_source : Nat) (document_id hash : String) : String :=
  toString data_source ++ "-" ++ document_id ++ "-" ++ hash

/-- The dedup key of a candidate row. -/
def uidOf (d : DocRow) : String := uidStr d.data_source d.document_id d.hash

/-- The scrub-unit triple of a row. -/
def tripleOf (d : DocRow) : Nat × String × String :=
  (d.data_source, d.document_id, d.hash)

/-- Row matches the unit triple (the shared WHERE conjuncts of the
liveness query and the purge). -/
def matchesTriple (r : DocRow) (data_source : Nat) (document_id hash : String) : Bool :=
  r.data_source == data_source && r.document_id == document_id && r.hash == hash

/-- The liveness query: `SELECT id FROM data_sources_documents WHERE
data_source = :ds AND document_id = :doc AND hash = :hash AND
status != 'deleted' AND created >= :deletedAt LIMIT 1` — nonempty iff
some non-deleted row with the triple was created at or after
`deletedAt`. -/
def hasMoreRecentSameHash (docs : List DocRow) (data_source : Nat)
    (document_id hash : String) (deletedAt : Nat) : Bool :=
  docs.any fun r =>
    matchesTriple r data_source document_id hash && r.status != "deleted" &&
      decide (deletedAt ≤ r.created)

/-- The source lookup: `SELECT * FROM data_sources WHERE id = :ds`,
of which the code uses the first row. -/
def findDataSource (sources : List DataSourceRow) (data_source : Nat) :
    Option DataSourceRow :=
  sources.find? fun s => s.id == data_source

/-- The blob path of a unit:
`` `${project}/${internal_id}/${digest(document_id)}/${hash}` ``. -/
def pathOf (env : Env) (src : DataSourceRow) (document_id hash : String) : String :=
  toString src.project ++ "/" ++ src.internal_id ++ "/" ++
    env.digest document_id ++ "/" ++ hash

/-- String extension test, on the character lists so that the kernel can
evaluate it (the byte-level `String.isPrefixOf` of core Lean is
extensionally the same function on valid strings). -/
def strExtends (pfx s : String) : Bool :=
  List.isPrefixOf pfx.data s.data

/-- `getFiles({ prefix })`: the objects whose name extends the path. -/
def listFiles (blobs : List String) (pfx : String) : List String :=
  blobs.filter fun n => strExtends pfx n

/-- The metadata purge: `DELETE FROM data_sources_documents WHERE
data_source = :ds AND document_id = :doc AND hash = :hash AND
status = 'deleted'` — keeps exactly the rows not matching. -/
def purgeQuery (docs : List DocRow) (data_source : Nat) (document_id hash : String) :
    List DocRow :=
  docs.filter fun r =>
    !(matchesTriple r data_source document_id hash && r.status == "deleted")

/-- Result of one unit's awaited remainder (or of the whole unit once the
synchronous decision is merged in). -/
structure BodyOut where
  st : St
  seen : List String
  ops : List Op
  res : UnitRes
deriving Repr, DecidableEq

/-- The awaited remainder of `scrubDocument`, after the synchronous
environment and dedup checks: liveness query, source lookup, blob
listing, per-object deletes, metadata purge, dedup-set update.  All
per-object deletes are initiated together (`Promise.all`); deletes that
do not fail take effect even when a sibling delete rejects, and the
unit then fails with the first rejection, without purging metadata or
touching the dedup set. -/
def scrubDocumentBody (env : Env) (st : St) (seen : List String)
    (data_source : Nat) (document_id : String) (deletedAt : Nat) (hash : String) :
    BodyOut :=
  if hasMoreRecentSameHash st.docs data_source document_id hash deletedAt then
    { st := st, seen := seen
      ops := [Op.liveQuery data_source document_id hash deletedAt]
      res := UnitRes.skipLive }
  else
    match findDataSource st.sources data_source with
    | none =>
        { st := st, seen := seen
          ops := [Op.liveQuery data_source document_id hash deletedAt,
                  Op.sourceQuery data_source]
          res := UnitRes.failed (UnitErr.sourceNotFound data_source) }
    | some src =>
        let pth := pathOf env src document_id hash
        let files := listFiles st.blobs pth
        let attempted := files.filter fun f => !(seen.contains f)
        let removed := attempted.filter fun f => !(env.deleteFails f)
        let blobs' := st.blobs.filter fun n => !(removed.contains n)
        let ops0 := [Op.liveQuery data_source document_id hash deletedAt,
                     Op.sourceQuery data_source, Op.blobList pth] ++
                    attempted.map Op.blobDelete
        match attempted.find? env.deleteFails with
        | some f =>
            { st := { st with blobs := blobs' }, seen := seen, ops := ops0
              res := UnitRes.failed (UnitErr.deleteFailed f) }
        | none =>
            { st := { st with blobs := blobs'
                              docs := purgeQuery st.docs data_source document_id hash }
              seen := (seen ++ files) ++ [uidStr data_source document_id hash]
              ops := ops0 ++ [Op.purge data_source document_id hash]
              res := UnitRes.purged }

/-- Decision of the synchronous prefix of `scrubDocument`: the two
environment-variable checks, in source order, then the dedup-set
membership test. -/
inductive SyncRes where
  | failedEnv (e : UnitErr)
  | dup
  | go
deriving Repr, DecidableEq

/-- The synchronous prefix of `scrubDocument`, evaluated for every unit
of a chunk before any unit's awaited remainder runs. -/
def syncCheck (env : Env) (seen : List String) (d : DocRow) : SyncRes :=
  if env.cfg.DUST_DATA_SOURCES_BUCKET = none then SyncRes.failedEnv UnitErr.envBucket
  else if env.cfg.SERVICE_ACCOUNT = none then SyncRes.failedEnv UnitErr.envServiceAccount
  else if seen.contains (uidStr d.data_source d.document_id d.hash) then SyncRes.dup
  else SyncRes.go

/-- Result and operations of one unit of a chunk. -/
structure UnitOutcome where
  res : UnitRes
  ops : List Op
deriving Repr, DecidableEq

/-- One unit, given its synchronous decision: a duplicate returns `false`
immediately, an environment failure throws immediately, otherwise the
awaited remainder runs. -/
def processUnit (env : Env) (sr : SyncRes) (st : St) (seen : List String)
    (d : DocRow) : BodyOut :=
  match sr with
  | SyncRes.failedEnv e => { st := st, seen := seen, ops := [], res := UnitRes.failed e }
  | SyncRes.dup => { st := st, seen := seen, ops := [], res := UnitRes.skipDup }
  | SyncRes.go =>
      scrubDocumentBody env st seen d.data_source d.document_id d.created d.hash

/-- State and outcomes after a sequence of units. -/
structure SeqOut where
  st : St
  seen : List String
  outs : List UnitOutcome
deriving Repr, DecidableEq

/-- Run the awaited remainders of a chunk sequentially, in chunk order,
threading the stores and the dedup set. -/
def processSeq (env : Env) : List (SyncRes × DocRow) → St → List String → SeqOut
  | [], st, seen => { st := st, seen := seen, outs := [] }
  | (sr, d) :: rest, st, seen =>
      let b := processUnit env sr st seen d
      let s := processSeq env rest b.st b.seen
      { st := s.st, seen := s.seen, outs := { res := b.res, ops := b.ops } :: s.outs }

/-- One chunk: evaluate every unit's synchronous prefix against the dedup
set as of chunk start, then run the remainders sequentially. -/
def processChunk (env : Env) (chunk : List DocRow) (st : St) (seen : List String) :
    SeqOut :=
  processSeq env (chunk.map fun d => (syncCheck env seen d, d)) st seen

/-- The first failure of a chunk (the rejection `Promise.all` reports). -/
def firstErr (outs : List UnitOutcome) : Option UnitErr :=
  outs.findSome? fun o =>
    match o.res with
    | UnitRes.failed e => some e
    | _ => none

/-- The candidate list is sliced into chunks of 32
(`deletedDocuments.slice(i, i + 32)`); the fuel argument is the list
length, making the recursion structural. -/
def chunksOf : Nat → List DocRow → List (List DocRow)
  | 0, _ => []
  | _, [] => []
  | fuel + 1, d :: rest => ((d :: rest).take 32) :: chunksOf fuel ((d :: rest).drop 32)

/-- State, dedup set, outcomes and error after processing a list of
chunks. -/
structure ChunksOut where
  st : St
  seen : List String
  outs : List UnitOutcome
  err : Option UnitErr
deriving Repr, DecidableEq

/-- Process chunks sequentially; a chunk containing a failure makes the
run throw after that chunk (its own effects, including those of sibling
units of the same chunk, have been applied), so no later chunk runs. -/
def runChunks (env : Env) : List (List DocRow) → St → List String → ChunksOut
  | [], st, seen => { st := st, seen := seen, outs := [], err := none }
  | c :: cs, st, seen =>
      let s := processChunk env c st seen
      match firstErr s.outs with
      | some e => { st := s.st, seen := s.seen, outs := s.outs, err := some e }
      | none =>
          let r := runChunks env cs s.st s.seen
          { st := r.st, seen := r.seen, outs := s.outs ++ r.outs, err := r.err }

/-- Run-level errors: missing database URI, or a unit failure that made
the run throw. -/
inductive RunErr where
  | envDb
  | unitFailed (e : UnitErr)
deriving Repr, DecidableEq

/-- Result of one invocation of the check: final stores, whether the
deleted-candidate query was issued, the per-unit outcomes of the
processed candidates in candidate order, the argument passed to
`reportSuccess` if it was called (`some none` models the empty summary
`\x7b\x7d`, which has no `unitsScrubbed` field), and the run error if
the invocation threw. -/
structure RunOut where
  st : St
  fetched : Bool
  units : List UnitOutcome
  reported : Option (Option Nat)
  err : Option RunErr
deriving Repr, DecidableEq

/-- The deleted-candidate query:
`SELECT * FROM data_sources_documents WHERE status = 'deleted'`. -/
def candidatesOf (st : St) : List DocRow :=
  st.docs.filter fun r => r.status == "deleted"

/-- `deletedCount`: the number of units whose `scrubDocument` call
returned `true`. -/
def countPurged (outs : List UnitOutcome) : Nat :=
  (outs.filter fun o => o.res == UnitRes.purged).length

/-- The check function `scrubDeletedCoreDocumentVersionsCheck`: abort if
the database URI is missing, fetch the deleted candidates, slice them
into chunks of 32, process the chunks, and call `reportSuccess(\x7b\x7d)`
if no unit threw. -/
def scrubDeletedCoreDocumentVersionsCheck (env : Env) (st : St) : RunOut :=
  if env.cfg.CORE_DATABASE_URI = none then
    { st := st, fetched := false, units := [], reported := none,
      err := some RunErr.envDb }
  else
    let cands := candidatesOf st
    let r := runChunks env (chunksOf cands.length cands) st []
    match r.err with
    | some e =>
        { st := r.st, fetched := true, units := r.outs, reported := none,
          err := some (RunErr.unitFailed e) }
    | none =>
        { st := r.st, fetched := true, units := r.outs, reported := some none,
          err := none }

/-! Concrete instances used to evaluate the model. -/

/-- A fully configured environment: identity digest, no delete faults. -/
def env0 : Env :=
  { cfg := { CORE_DATABASE_URI := some "db", SERVICE_ACCOUNT := some "sa",
             DUST_DATA_SOURCES_BUCKET := some "bucket" }
    digest := fun s => s
    deleteFails := fun _ => false }

/-- Environment in which deleting the object `7/s/d1/h1/a` rejects. -/
def envDel : Env :=
  { cfg := { CORE_DATABASE_URI := some "db", SERVICE_ACCOUNT := some "sa",
             DUST_DATA_SOURCES_BUCKET := some "bucket" }
    digest := fun s => s
    deleteFails := fun n => n == "7/s/d1/h1/a" }

/-- Environment with the data-sources bucket variable missing. -/
def envNoBucket : Env :=
  { cfg := { CORE_DATABASE_URI := some "db", SERVICE_ACCOUNT := some "sa",
             DUST_DATA_SOURCES_BUCKET := none }
    digest := fun s => s
    deleteFails := fun _ => false }

/-- One deleted candidate whose single blob fails to delete. -/
def stDel : St :=
  { docs := [{ id := 1, created := 0, data_source := 1, document_id := "d1",
               hash := "h1", status := "deleted" }]
    sources := [{ id := 1, project := 7, internal_id := "s" }]
    blobs := ["7/s/d1/h1/a"] }

/-- One deleted candidate whose `data_source` has no source row. -/
def stNoSrc : St :=
  { docs := [{ id := 1, created := 0, data_source := 5, document_id := "d",
               hash := "h", status := "deleted" }]
    sources := []
    blobs := [] }

/-- Two deleted candidates with the same triple, in the same chunk, plus
the one blob under their shared path. -/
def stDup : St :=
  { docs := [{ id := 1, created := 0, data_source := 1, document_id := "d",
               hash := "h", status := "deleted" },
             { id := 2, created := 0, data_source := 1, document_id := "d",
               hash := "h", status := "deleted" }]
    sources := [{ id := 1, project := 7, internal_id := "s" }]
    blobs := ["7/s/d/h/a"] }

/-- One deleted candidate that purges cleanly. -/
def stOne : St :=
  { docs := [{ id := 1, created := 0, data_source := 1, document_id := "d",
               hash := "h", status := "deleted" }]
    sources := [{ id := 1, project := 7, internal_id := "s" }]
    blobs := [] }

/-- Thirty-one filler candidates that are live-skipped (they share a
triple with an active row created later). -/
def fillerRows : List DocRow :=
  (List.range 31).map fun k =>
    { id := 100 + k, created := 0, data_source := 2, document_id := "f",
      hash := "fh", status := "deleted" }

/-- A 33-candidate state in which candidate 0 (triple `(1, "a", "b-c")`)
and candidate 32 (triple `(1, "a-b", "c")`) are distinct triples with
the same dedup key `1-a-b-c`, placed in different chunks. -/
def stCollide : St :=
  { docs := ({ id := 1, created := 0, data_source := 1, document_id := "a",
               hash := "b-c", status := "deleted" } :: fillerRows) ++
            [{ id := 2, created := 0, data_source := 1, document_id := "a-b",
               hash := "c", status := "deleted" },
             { id := 3, created := 100, data_source := 2, document_id := "f",
               hash := "fh", status := "active" }]
    sources := [{ id := 1, project := 7, internal_id := "s" }]
    blobs := [] }

/-- Recognizes a blob-listing operation. -/
def isBlobList : Op → Bool
  | Op.blobList _ => true
  | _ => false

/-- Total number of blob-listing operations issued by a list of unit
outcomes. -/
def countBlobLists (outs : List UnitOutcome) : Nat :=
  (outs.map fun o => (o.ops.filter isBlobList).length).sum

/-- Environment with the database URI variable missing. -/
def envNoDb : Env :=
  { cfg := { CORE_DATABASE_URI := none, SERVICE_ACCOUNT := some "sa",
             DUST_DATA_SOURCES_BUCKET := some "bucket" }
    digest := fun s => s
    deleteFails := fun _ => false }

/-- A deleted row shadowed by an active row with the same triple created
later. -/
def stLiveW : St :=
  { docs := [{ id := 1, created := 0, data_source := 1, document_id := "d",
               hash := "h", status := "deleted" },
             { id := 2, created := 5, data_source := 1, document_id := "d",
               hash := "h", status := "active" }]
    sources := [{ id := 1, project := 7, internal_id := "s" }]
    blobs := [] }

/-- One deleted candidate with one blob under its path. -/
def stW4 : St :=
  { docs := [{ id := 1, created := 0, data_source := 1, document_id := "d",
               hash := "h", status := "deleted" }]
    sources := [{ id := 1, project := 7, internal_id := "s" }]
    blobs := ["7/s/d/h/x"] }

/-- A 33-candidate state whose candidates 0 and 32 are two deleted rows
with the same triple `(1, "d", "h")`, landing in different chunks. -/
def stDup33 : St :=
  { docs := ({ id := 1, created := 0, data_source := 1, document_id := "d",
               hash := "h", status := "deleted" } :: fillerRows) ++
            [{ id := 2, created := 0, data_source := 1, document_id := "d",
               hash := "h", status := "deleted" },
             { id := 3, created := 100, data_source := 2, document_id := "f",
               hash := "fh", status := "active" }]
    sources := [{ id := 1, project := 7, internal_id := "s" }]
    blobs := [] }

/-! Basic characterizations of the embedded queries. -/

theorem matchesTriple_iff {r : DocRow} {ds : Nat} {doc h : String} :
    matchesTriple r ds doc h = true ↔
      (r.data_source = ds ∧ r.document_id = doc ∧ r.hash = h) := by
  simp [matchesTriple, Bool.and_eq_true, and_assoc]

theorem matchesTriple_self (r : DocRow) :
    matchesTriple r r.data_source r.document_id r.hash = true := by
  simp [matchesTriple]

theorem mem_purgeQuery {r : DocRow} {docs : List DocRow} {ds : Nat} {doc h : String} :
    r ∈ purgeQuery docs ds doc h ↔
      r ∈ docs ∧ ¬(matchesTriple r ds doc h = true ∧ r.status = "deleted") := by
  constructor
  · intro hr
    have hm := List.mem_filter.1 hr
    refine ⟨hm.1, ?_⟩
    rintro ⟨hmt, hdel⟩
    have hb := hm.2
    rw [hmt, hdel] at hb
    simp at hb
  · rintro ⟨hm, hneg⟩
    refine List.mem_filter.2 ⟨hm, ?_⟩
    by_cases hmt : matchesTriple r ds doc h = true
    · by_cases hdel : r.status = "deleted"
      · exact absurd ⟨hmt, hdel⟩ hneg
      · simp [hmt, hdel]
    · rw [Bool.not_eq_true] at hmt
      simp [hmt]

theorem purgeQuery_subset {docs : List DocRow} {ds : Nat} {doc h : String} :
    ∀ r ∈ purgeQuery docs ds doc h, r ∈ docs := by
  intro r hr
  exact (mem_purgeQuery.1 hr).1

theorem purgeQuery_keeps_nondeleted {docs : List DocRow} {ds : Nat} {doc h : String}
    {r : DocRow} (hm : r ∈ docs) (hs : r.status ≠ "deleted") :
    r ∈ purgeQuery docs ds doc h := by
  refine mem_purgeQuery.2 ⟨hm, ?_⟩
  rintro ⟨-, hdel⟩
  exact hs hdel

theorem self_not_mem_purgeQuery {docs : List DocRow} {d : DocRow}
    (hdel : d.status = "deleted") :
    d ∉ purgeQuery docs d.data_source d.document_id d.hash := by
  intro hmem
  exact (mem_purgeQuery.1 hmem).2 ⟨matchesTriple_self d, hdel⟩

theorem hasMoreRecentSameHash_iff {docs : List DocRow} {ds : Nat} {doc h : String}
    {t : Nat} :
    hasMoreRecentSameHash docs ds doc h t = true ↔
      ∃ r ∈ docs, r.data_source = ds ∧ r.document_id = doc ∧ r.hash = h ∧
        r.status ≠ "deleted" ∧ t ≤ r.created := by
  simp [hasMoreRecentSameHash, List.any_eq_true, Bool.and_eq_true, matchesTriple_iff,
    and_assoc, bne_iff_ne]

theorem listFiles_subset {blobs : List String} {pfx : String} :
    ∀ n ∈ listFiles blobs pfx, n ∈ blobs := by
  intro n hn
  exact (List.mem_filter.1 hn).1

/-! Branch analysis of the unit body. -/

theorem body_cases (env : Env) (st : St) (seen : List String)
    (ds : Nat) (doc : String) (t : Nat) (hsh : String) :
    (hasMoreRecentSameHash st.docs ds doc hsh t = true ∧
      scrubDocumentBody env st seen ds doc t hsh =
        { st := st, seen := seen, ops := [Op.liveQuery ds doc hsh t],
          res := UnitRes.skipLive }) ∨
    (hasMoreRecentSameHash st.docs ds doc hsh t = false ∧
      findDataSource st.sources ds = none ∧
      scrubDocumentBody env st seen ds doc t hsh =
        { st := st, seen := seen,
          ops := [Op.liveQuery ds doc hsh t, Op.sourceQuery ds],
          res := UnitRes.failed (UnitErr.sourceNotFound ds) }) ∨
    (∃ src files attempted,
      hasMoreRecentSameHash st.docs ds doc hsh t = false ∧
      findDataSource st.sources ds = some src ∧
      files = listFiles st.blobs (pathOf env src doc hsh) ∧
      attempted = files.filter (fun f => !(seen.contains f)) ∧
      ((∃ f, attempted.find? env.deleteFails = some f ∧
        scrubDocumentBody env st seen ds doc t hsh =
          { st := { st with
              blobs := st.blobs.filter fun n =>
                !((attempted.filter fun f => !(env.deleteFails f)).contains n) }
            seen := seen
            ops := [Op.liveQuery ds doc hsh t, Op.sourceQuery ds,
                    Op.blobList (pathOf env src doc hsh)] ++
                   attempted.map Op.blobDelete
            res := UnitRes.failed (UnitErr.deleteFailed f) }) ∨
       (attempted.find? env.deleteFails = none ∧
        scrubDocumentBody env st seen ds doc t hsh =
          { st := { st with
              docs := purgeQuery st.docs ds doc hsh
              blobs := st.blobs.filter fun n =>
                !((attempted.filter fun f => !(env.deleteFails f)).contains n) }
            seen := (seen ++ files) ++ [uidStr ds doc hsh]
            ops := ([Op.liveQuery ds doc hsh t, Op.sourceQuery ds,
                     Op.blobList (pathOf env src doc hsh)] ++
                    attempted.map Op.blobDelete) ++ [Op.purge ds doc hsh]
            res := UnitRes.purged }))) := by
  by_cases hl : hasMoreRecentSameHash st.docs ds doc hsh t = true
  · left
    exact ⟨hl, by simp only [scrubDocumentBody, hl, ite_true]⟩
  · rw [Bool.not_eq_true] at hl
    cases hf : findDataSource st.sources ds with
    | none =>
        right; left
        refine ⟨hl, rfl, ?_⟩
        simp only [scrubDocumentBody, hl, hf, Bool.false_eq_true, ite_false]
    | some src =>
        right; right
        refine ⟨src, _, _, hl, rfl, rfl, rfl, ?_⟩
        cases hdf : ((listFiles st.blobs (pathOf env src doc hsh)).filter
            (fun f => !(seen.contains f))).find? env.deleteFails with
        | some f =>
            left
            refine ⟨f, rfl, ?_⟩
            simp only [scrubDocumentBody, hl, hf, hdf, Bool.false_eq_true, ite_false]
        | none =>
            right
            refine ⟨rfl, ?_⟩
            simp only [scrubDocumentBody, hl, hf, hdf, Bool.false_eq_true, ite_false]

/-! Frame properties of a processing step. -/

/-- Relation between the stores before and after part of a run: document
rows and blobs are only ever removed, rows whose status is not
`deleted` are kept, and the sources table is untouched. -/
def StepSt (s s' : St) : Prop :=
  (∀ r, r ∈ s'.docs → r ∈ s.docs) ∧
  (∀ r, r ∈ s.docs → r.status ≠ "deleted" → r ∈ s'.docs) ∧
  (∀ n, n ∈ s'.blobs → n ∈ s.blobs) ∧
  s'.sources = s.sources

theorem stepSt_refl (s : St) : StepSt s s :=
  ⟨fun _ hr => hr, fun _ hr _ => hr, fun _ hn => hn, rfl⟩

theorem stepSt_trans {s s' s'' : St} (h1 : StepSt s s') (h2 : StepSt s' s'') :
    StepSt s s'' :=
  ⟨fun r hr => h1.1 r (h2.1 r hr),
   fun r hr hs => h2.2.1 r (h1.2.1 r hr hs) hs,
   fun n hn => h1.2.2.1 n (h2.2.2.1 n hn),
   h2.2.2.2.trans h1.2.2.2⟩

theorem body_stepSt (env : Env) (st : St) (seen : List String)
    (ds : Nat) (doc : String) (t : Nat) (hsh : String) :
    StepSt st (scrubDocumentBody env st seen ds doc t hsh).st := by
  rcases body_cases env st seen ds doc t hsh with ⟨-, heq⟩ | ⟨-, -, heq⟩ |
    ⟨src, files, attempted, -, -, -, -, ⟨f, -, heq⟩ | ⟨-, heq⟩⟩ <;> rw [heq]
  · exact stepSt_refl st
  · exact stepSt_refl st
  · exact ⟨fun r hr => hr, fun r hr _ => hr,
     fun n hn => (List.mem_filter.1 hn).1, rfl⟩
  · exact ⟨fun r hr => purgeQuery_subset r hr,
     fun r hr hs => purgeQuery_keeps_nondeleted hr hs,
     fun n hn => (List.mem_filter.1 hn).1, rfl⟩

theorem body_seen_super (env : Env) (st : St) (seen : List String)
    (ds : Nat) (doc : String) (t : Nat) (hsh : String) :
    ∀ u ∈ seen, u ∈ (scrubDocumentBody env st seen ds doc t hsh).seen := by
  rcases body_cases env st seen ds doc t hsh with ⟨-, heq⟩ | ⟨-, -, heq⟩ |
    ⟨src, files, attempted, -, -, -, -, ⟨f, -, heq⟩ | ⟨-, heq⟩⟩ <;> rw [heq] <;>
    intro u hu
  · exact hu
  · exact hu
  · exact hu
  · exact List.mem_append.2 (Or.inl (List.mem_append.2 (Or.inl hu)))

theorem body_seen_new (env : Env) (st : St) (seen : List String)
    (ds : Nat) (doc : String) (t : Nat) (hsh : String) :
    ∀ u ∈ (scrubDocumentBody env st seen ds doc t hsh).seen,
      u ∈ seen ∨ u ∈ st.blobs ∨ u = uidStr ds doc hsh := by
  rcases body_cases env st seen ds doc t hsh with ⟨-, heq⟩ | ⟨-, -, heq⟩ |
    ⟨src, files, attempted, -, -, hfiles, -, ⟨f, -, heq⟩ | ⟨-, heq⟩⟩ <;> rw [heq] <;>
    intro u hu
  · exact Or.inl hu
  · exact Or.inl hu
  · exact Or.inl hu
  · rcases List.mem_append.1 hu with hu' | hu'
    · rcases List.mem_append.1 hu' with h | h
      · exact Or.inl h
      · exact Or.inr (Or.inl (listFiles_subset u (hfiles ▸ h)))
    · exact Or.inr (Or.inr (List.mem_singleton.1 hu'))

theorem body_failed_frame (env : Env) (st : St) (seen : List String)
    (ds : Nat) (doc : String) (t : Nat) (hsh : String) (e : UnitErr)
    (hres : (scrubDocumentBody env st seen ds doc t hsh).res = UnitRes.failed e) :
    (scrubDocumentBody env st seen ds doc t hsh).seen = seen ∧
    (scrubDocumentBody env st seen ds doc t hsh).st.docs = st.docs ∧
    ∀ a b c, Op.purge a b c ∉ (scrubDocumentBody env st seen ds doc t hsh).ops := by
  rcases body_cases env st seen ds doc t hsh with ⟨-, heq⟩ | ⟨-, -, heq⟩ |
    ⟨src, files, attempted, -, -, -, -, ⟨f, -, heq⟩ | ⟨-, heq⟩⟩ <;>
    rw [heq] at hres ⊢
  · exact absurd hres (by simp)
  · refine ⟨rfl, rfl, ?_⟩
    intro a b c hmem
    simp at hmem
  · refine ⟨rfl, rfl, ?_⟩
    intro a b c hmem
    rcases List.mem_append.1 hmem with hm | hm
    · simp at hm
    · rcases List.mem_map.1 hm with ⟨x, -, hx⟩
      exact Op.noConfusion hx
  · exact absurd hres (by simp)

theorem body_skipLive_frame (env : Env) (st : St) (seen : List String)
    (ds : Nat) (doc : String) (t : Nat) (hsh : String)
    (hres : (scrubDocumentBody env st seen ds doc t hsh).res = UnitRes.skipLive) :
    (scrubDocumentBody env st seen ds doc t hsh).st = st ∧
    (scrubDocumentBody env st seen ds doc t hsh).seen = seen ∧
    (scrubDocumentBody env st seen ds doc t hsh).ops = [Op.liveQuery ds doc hsh t] ∧
    hasMoreRecentSameHash st.docs ds doc hsh t = true := by
  rcases body_cases env st seen ds doc t hsh with ⟨hl, heq⟩ | ⟨-, -, heq⟩ |
    ⟨src, files, attempted, -, -, -, -, ⟨f, -, heq⟩ | ⟨-, heq⟩⟩ <;>
    rw [heq] at hres ⊢
  · exact ⟨rfl, rfl, rfl, hl⟩
  · exact absurd hres (by simp)
  · exact absurd hres (by simp)
  · exact absurd hres (by simp)

theorem body_purged_uid (env : Env) (st : St) (seen : List String)
    (ds : Nat) (doc : String) (t : Nat) (hsh : String)
    (hres : (scrubDocumentBody env st seen ds doc t hsh).res = UnitRes.purged) :
    uidStr ds doc hsh ∈ (scrubDocumentBody env st seen ds doc t hsh).seen := by
  rcases body_cases env st seen ds doc t hsh with ⟨-, heq⟩ | ⟨-, -, heq⟩ |
    ⟨src, files, attempted, -, -, -, -, ⟨f, -, heq⟩ | ⟨-, heq⟩⟩ <;>
    rw [heq] at hres ⊢
  · exact absurd hres (by simp)
  · exact absurd hres (by simp)
  · exact absurd hres (by simp)
  · exact List.mem_append.2 (Or.inr (List.mem_singleton.2 rfl))

theorem body_purged_noDeleted (env : Env) (st : St) (seen : List String)
    (ds : Nat) (doc : String) (t : Nat) (hsh : String)
    (hres : (scrubDocumentBody env st seen ds doc t hsh).res = UnitRes.purged) :
    ∀ r ∈ (scrubDocumentBody env st seen ds doc t hsh).st.docs,
      ¬(matchesTriple r ds doc hsh = true ∧ r.status = "deleted") := by
  rcases body_cases env st seen ds doc t hsh with ⟨-, heq⟩ | ⟨-, -, heq⟩ |
    ⟨src, files, attempted, -, -, -, -, ⟨f, -, heq⟩ | ⟨-, heq⟩⟩ <;>
    rw [heq] at hres ⊢
  · exact absurd hres (by simp)
  · exact absurd hres (by simp)
  · exact absurd hres (by simp)
  · intro r hr
    exact (mem_purgeQuery.1 hr).2

theorem processUnit_stepSt (env : Env) (sr : SyncRes) (st : St) (seen : List String)
    (d : DocRow) : StepSt st (processUnit env sr st seen d).st := by
  cases sr with
  | failedEnv e => exact stepSt_refl st
  | dup => exact stepSt_refl st
  | go => exact body_stepSt env st seen d.data_source d.document_id d.created d.hash

theorem processUnit_seen_super (env : Env) (sr : SyncRes) (st : St) (seen : List String)
    (d : DocRow) : ∀ u ∈ seen, u ∈ (processUnit env sr st seen d).seen := by
  cases sr with
  | failedEnv e => exact fun u hu => hu
  | dup => exact fun u hu => hu
  | go => exact body_seen_super env st seen d.data_source d.document_id d.created d.hash

theorem processSeq_stepSt (env : Env) (pairs : List (SyncRes × DocRow)) :
    ∀ (st : St) (seen : List String), StepSt st (processSeq env pairs st seen).st := by
  induction pairs with
  | nil => intro st seen; exact stepSt_refl st
  | cons p rest ih =>
      intro st seen
      obtain ⟨sr, d⟩ := p
      simp only [processSeq]
      exact stepSt_trans (processUnit_stepSt env sr st seen d) (ih _ _)

theorem processSeq_seen_super (env : Env) (pairs : List (SyncRes × DocRow)) :
    ∀ (st : St) (seen : List String), ∀ u ∈ seen, u ∈ (processSeq env pairs st seen).seen := by
  induction pairs with
  | nil => intro st seen u hu; exact hu
  | cons p rest ih =>
      intro st seen u hu
      obtain ⟨sr, d⟩ := p
      simp only [processSeq]
      exact ih _ _ u (processUnit_seen_super env sr st seen d u hu)

theorem processSeq_outs_length (env : Env) (pairs : List (SyncRes × DocRow)) :
    ∀ (st : St) (seen : List String),
      (processSeq env pairs st seen).outs.length = pairs.length := by
  induction pairs with
  | nil => intro st seen; rfl
  | cons p rest ih =>
      intro st seen
      obtain ⟨sr, d⟩ := p
      simp only [processSeq, List.length_cons]
      rw [ih]

theorem processChunk_stepSt (env : Env) (chunk : List DocRow) (st : St)
    (seen : List String) : StepSt st (processChunk env chunk st seen).st :=
  processSeq_stepSt env _ st seen

theorem processChunk_seen_super (env : Env) (chunk : List DocRow) (st : St)
    (seen : List String) : ∀ u ∈ seen, u ∈ (processChunk env chunk st seen).seen :=
  processSeq_seen_super env _ st seen

theorem processChunk_outs_length (env : Env) (chunk : List DocRow) (st : St)
    (seen : List String) : (processChunk env chunk st seen).outs.length = chunk.length := by
  unfold processChunk
  rw [processSeq_outs_length, List.length_map]

theorem firstErr_none_iff {outs : List UnitOutcome} :
    firstErr outs = none ↔ ∀ o ∈ outs, ∀ e, o.res ≠ UnitRes.failed e := by
  unfold firstErr
  rw [List.findSome?_eq_none_iff]
  constructor
  · intro h o ho e hres
    have hval := h o ho
    rw [hres] at hval
    simp at hval
  · intro h o ho
    cases hres : o.res with
    | failed e => exact absurd hres (h o ho e)
    | skipDup => simp
    | skipLive => simp
    | purged => simp

theorem runChunks_stepSt (env : Env) (chunks : List (List DocRow)) :
    ∀ (st : St) (seen : List String), StepSt st (runChunks env chunks st seen).st := by
  induction chunks with
  | nil => intro st seen; exact stepSt_refl st
  | cons c cs ih =>
      intro st seen
      simp only [runChunks]
      cases hfe : firstErr (processChunk env c st seen).outs with
      | some e => exact processChunk_stepSt env c st seen
      | none => exact stepSt_trans (processChunk_stepSt env c st seen) (ih _ _)

theorem runChunks_seen_super (env : Env) (chunks : List (List DocRow)) :
    ∀ (st : St) (seen : List String), ∀ u ∈ seen, u ∈ (runChunks env chunks st seen).seen := by
  induction chunks with
  | nil => intro st seen u hu; exact hu
  | cons c cs ih =>
      intro st seen u hu
      simp only [runChunks]
      cases hfe : firstErr (processChunk env c st seen).outs with
      | some e => exact processChunk_seen_super env c st seen u hu
      | none => exact ih _ _ u (processChunk_seen_super env c st seen u hu)

theorem scrubCheck_stepSt (env : Env) (st : St) : StepSt st (scrubDeletedCoreDocumentVersionsCheck env st).st := by
  unfold scrubDeletedCoreDocumentVersionsCheck
  by_cases hdb : env.cfg.CORE_DATABASE_URI = none
  · simp only [hdb, if_true]
    exact stepSt_refl st
  · simp only [hdb, if_false]
    cases herr : (runChunks env (chunksOf (candidatesOf st).length (candidatesOf st)) st []).err with
    | some e => exact runChunks_stepSt env _ st []
    | none => exact runChunks_stepSt env _ st []

/-! Claim C1. -/

/-- C1: for every deleted version candidate, if the metadata store holds a
non-deleted version with the same `(data_source, document_id, hash)`
whose creation time is at or after the candidate's deletion time, the
unit is skipped: `scrubDocument` issues no blob listing, no blob delete
and no metadata purge (only the liveness query runs), leaves both stores
and the dedup set unchanged, and returns `false` (`skipLive`, not
counted as purged). -/
theorem c1_dedup_preserves_live (env : Env) (st : St) (seen : List String)
    (ds : Nat) (doc : String) (t : Nat) (hsh : String)
    (hlive : ∃ r ∈ st.docs, r.data_source = ds ∧ r.document_id = doc ∧
      r.hash = hsh ∧ r.status ≠ "deleted" ∧ t ≤ r.created) :
    scrubDocumentBody env st seen ds doc t hsh =
      { st := st, seen := seen, ops := [Op.liveQuery ds doc hsh t],
        res := UnitRes.skipLive } := by
  have hl : hasMoreRecentSameHash st.docs ds doc hsh t = true :=
    hasMoreRecentSameHash_iff.2 hlive
  rcases body_cases env st seen ds doc t hsh with ⟨-, heq⟩ | ⟨hl', -, -⟩ |
    ⟨src, files, attempted, hl', -⟩
  · exact heq
  · rw [hl] at hl'; exact absurd hl' (by simp)
  · rw [hl] at hl'; exact absurd hl' (by simp)

/-- Witness for C1 at a concrete store. -/
theorem c1_witness :
    scrubDocumentBody env0 stLiveW [] 1 "d" 0 "h" =
      { st := stLiveW, seen := [], ops := [Op.liveQuery 1 "d" "h" 0],
        res := UnitRes.skipLive } :=
  c1_dedup_preserves_live env0 stLiveW [] 1 "d" 0 "h" (by decide)

/-! Claim C10. -/

/-- C10: the dedup set is updated atomically with unit success: a failing
or live-skipped unit leaves it unchanged, and whenever it changed, the
unit purged — its metadata purge is among the issued operations (and it
is the final operation, by `c4_deletes_before_purge`) and the unit's key
is in the updated set. -/
theorem c10_seen_update_atomic (env : Env) (st : St) (seen : List String)
    (ds : Nat) (doc : String) (t : Nat) (hsh : String) :
    (∀ e, (scrubDocumentBody env st seen ds doc t hsh).res = UnitRes.failed e →
      (scrubDocumentBody env st seen ds doc t hsh).seen = seen) ∧
    ((scrubDocumentBody env st seen ds doc t hsh).res = UnitRes.skipLive →
      (scrubDocumentBody env st seen ds doc t hsh).seen = seen) ∧
    ((scrubDocumentBody env st seen ds doc t hsh).seen ≠ seen →
      (scrubDocumentBody env st seen ds doc t hsh).res = UnitRes.purged ∧
      Op.purge ds doc hsh ∈ (scrubDocumentBody env st seen ds doc t hsh).ops ∧
      uidStr ds doc hsh ∈ (scrubDocumentBody env st seen ds doc t hsh).seen) := by
  rcases body_cases env st seen ds doc t hsh with ⟨-, heq⟩ | ⟨-, -, heq⟩ |
    ⟨src, files, attempted, -, -, -, -, ⟨f, -, heq⟩ | ⟨-, heq⟩⟩ <;> rw [heq]
  · exact ⟨fun e h => rfl, fun _ => rfl, fun hne => absurd rfl hne⟩
  · exact ⟨fun e h => rfl, fun _ => rfl, fun hne => absurd rfl hne⟩
  · exact ⟨fun e h => rfl, fun _ => rfl, fun hne => absurd rfl hne⟩
  · refine ⟨fun e h => by simp at h, fun h => by simp at h, fun _ => ?_⟩
    refine ⟨rfl, List.mem_append.2 (Or.inr (List.mem_singleton.2 rfl)),
      List.mem_append.2 (Or.inr (List.mem_singleton.2 rfl))⟩

/-- Witness for C10 at a concrete purging unit. -/
theorem c10_witness :
    (scrubDocumentBody env0 stOne [] 1 "d" 0 "h").res = UnitRes.purged ∧
    Op.purge 1 "d" "h" ∈ (scrubDocumentBody env0 stOne [] 1 "d" 0 "h").ops ∧
    uidStr 1 "d" "h" ∈ (scrubDocumentBody env0 stOne [] 1 "d" 0 "h").seen :=
  (c10_seen_update_atomic env0 stOne [] 1 "d" 0 "h").2.2 (by decide)

/-! Claim C7. -/

/-- C7: the metadata purge removes exactly the rows that match the unit's
triple and have status `deleted`; consequently over any whole run, no
row with status `active` is ever removed from the metadata store. -/
theorem c7_purge_scope (env : Env) (st : St) :
    (∀ docs ds doc hsh r, r ∈ purgeQuery docs ds doc hsh ↔
      r ∈ docs ∧ ¬(r.data_source = ds ∧ r.document_id = doc ∧ r.hash = hsh ∧
        r.status = "deleted")) ∧
    (∀ r ∈ st.docs, r.status = "active" → r ∈ (scrubDeletedCoreDocumentVersionsCheck env st).st.docs) := by
  constructor
  · intro docs ds doc hsh r
    rw [mem_purgeQuery, matchesTriple_iff]
    tauto
  · intro r hr hs
    refine (scrubCheck_stepSt env st).2.1 r hr ?_
    rw [hs]
    decide

/-- Witness for C7: an active row survives a run that purges its deleted
sibling. -/
theorem c7_witness :
    ({ id := 2, created := 5, data_source := 1, document_id := "d",
       hash := "h", status := "active" } : DocRow) ∈ (scrubDeletedCoreDocumentVersionsCheck env0 stLiveW).st.docs :=
  (c7_purge_scope env0 stLiveW).2 _ (by decide) rfl

/-! Claim C4. -/

/-- C4: within one unit, the metadata purge is issued only after every
per-object blob deletion: any purge operation comes strictly after
every blob-delete operation of the unit, and if the purge was issued
then a delete was issued for every listed object not already handled
(the code checks `seen` before deleting). -/
theorem c4_deletes_before_purge (env : Env) (st : St) (seen : List String)
    (ds : Nat) (doc : String) (t : Nat) (hsh : String) :
    (∀ (i j : Nat) (a : Nat) (b c f : String),
      (scrubDocumentBody env st seen ds doc t hsh).ops[i]? = some (Op.purge a b c) →
      (scrubDocumentBody env st seen ds doc t hsh).ops[j]? = some (Op.blobDelete f) →
      j < i) ∧
    (∀ (a : Nat) (b c : String),
      Op.purge a b c ∈ (scrubDocumentBody env st seen ds doc t hsh).ops →
      ∀ src, findDataSource st.sources ds = some src →
      ∀ f ∈ listFiles st.blobs (pathOf env src doc hsh), seen.contains f = false →
        Op.blobDelete f ∈ (scrubDocumentBody env st seen ds doc t hsh).ops) := by
  rcases body_cases env st seen ds doc t hsh with ⟨-, heq⟩ | ⟨-, -, heq⟩ |
    ⟨src0, files, attempted, -, hf, hfiles, hatt, ⟨f0, -, heq⟩ | ⟨-, heq⟩⟩ <;>
    rw [heq] <;> dsimp only
  · constructor
    · intro i j a b c f hi hj
      have hm : Op.purge a b c ∈ [Op.liveQuery ds doc hsh t] := List.getElem?_mem hi
      simp at hm
    · intro a b c hmem
      simp at hmem
  · constructor
    · intro i j a b c f hi hj
      have hm : Op.purge a b c ∈ [Op.liveQuery ds doc hsh t, Op.sourceQuery ds] :=
        List.getElem?_mem hi
      simp at hm
    · intro a b c hmem
      simp at hmem
  · constructor
    · intro i j a b c f hi hj
      have hm : Op.purge a b c ∈
          [Op.liveQuery ds doc hsh t, Op.sourceQuery ds,
           Op.blobList (pathOf env src0 doc hsh)] ++ attempted.map Op.blobDelete :=
        List.getElem?_mem hi
      rcases List.mem_append.1 hm with hm' | hm'
      · simp at hm'
      · rcases List.mem_map.1 hm' with ⟨x, -, hx⟩
        exact Op.noConfusion hx
    · intro a b c hmem
      rcases List.mem_append.1 hmem with hm | hm
      · simp at hm
      · rcases List.mem_map.1 hm with ⟨x, -, hx⟩
        exact Op.noConfusion hx
  · have hnp : ∀ (a : Nat) (b c : String), Op.purge a b c ∉
        [Op.liveQuery ds doc hsh t, Op.sourceQuery ds,
         Op.blobList (pathOf env src0 doc hsh)] ++ attempted.map Op.blobDelete := by
      intro a b c hmem
      rcases List.mem_append.1 hmem with hm | hm
      · simp at hm
      · rcases List.mem_map.1 hm with ⟨x, -, hx⟩
        exact Op.noConfusion hx
    constructor
    · intro i j a b c f hi hj
      set pre := [Op.liveQuery ds doc hsh t, Op.sourceQuery ds,
        Op.blobList (pathOf env src0 doc hsh)] ++ attempted.map Op.blobDelete with hpre
      have hilen : i = pre.length := by
        rcases Nat.lt_trichotomy i pre.length with hlt | heqi | hgt
        · rw [List.getElem?_append_left hlt] at hi
          exact absurd (List.getElem?_mem hi) (hnp a b c)
        · exact heqi
        · rw [List.getElem?_append_right (Nat.le_of_lt hgt)] at hi
          have hnone : ([Op.purge ds doc hsh] : List Op)[i - pre.length]? = none := by
            refine List.getElem?_eq_none ?_
            simp only [List.length_singleton]
            omega
          rw [hnone] at hi
          exact Option.noConfusion hi
      have hjlen : j < pre.length := by
        rcases Nat.lt_trichotomy j pre.length with hlt | heqj | hgt
        · exact hlt
        · rw [heqj, List.getElem?_concat_length] at hj
          exact Op.noConfusion (Option.some.inj hj)
        · rw [List.getElem?_append_right (Nat.le_of_lt hgt)] at hj
          have hnone : ([Op.purge ds doc hsh] : List Op)[j - pre.length]? = none := by
            refine List.getElem?_eq_none ?_
            simp only [List.length_singleton]
            omega
          rw [hnone] at hj
          exact Option.noConfusion hj
      omega
    · intro a b c hmem src hsrc f hfl hcont
      have hsrc0 : src0 = src := Option.some.inj (hf ▸ hsrc)
      refine List.mem_append.2 (Or.inl (List.mem_append.2 (Or.inr ?_)))
      refine List.mem_map.2 ⟨f, ?_, rfl⟩
      rw [hatt, hfiles, hsrc0]
      refine List.mem_filter.2 ⟨hfl, ?_⟩
      rw [hcont]
      rfl

/-- Witness for C4 at a concrete purging unit with one blob. -/
theorem c4_witness :
    (3 : Nat) < 4 ∧
    Op.blobDelete "7/s/d/h/x" ∈ (scrubDocumentBody env0 stW4 [] 1 "d" 0 "h").ops := by
  have h := c4_deletes_before_purge env0 stW4 [] 1 "d" 0 "h"
  exact ⟨h.1 4 3 1 "d" "h" "7/s/d/h/x" (by decide) (by decide),
    h.2 1 "d" "h" (by decide) { id := 1, project := 7, internal_id := "s" }
      (by decide) "7/s/d/h/x" (by decide) (by decide)⟩

/-! Reporting behavior of the run. -/

theorem scrubCheck_report_spec (env : Env) (st : St) :
    ((scrubDeletedCoreDocumentVersionsCheck env st).err = none → (scrubDeletedCoreDocumentVersionsCheck env st).reported = some none) ∧
    ((scrubDeletedCoreDocumentVersionsCheck env st).err ≠ none → (scrubDeletedCoreDocumentVersionsCheck env st).reported = none) := by
  unfold scrubDeletedCoreDocumentVersionsCheck
  by_cases hdb : env.cfg.CORE_DATABASE_URI = none
  · simp [hdb]
  · simp only [hdb, if_false]
    cases herr : (runChunks env (chunksOf (candidatesOf st).length (candidatesOf st))
        st []).err <;> simp

/-! Claim C2. -/

/-- C2 as stated is false on the code: with one candidate whose single
blob delete rejects, the unit indeed purges no metadata, but the
rejection propagates out of `Promise.all` and the whole run throws —
the run is aborted and no success report is made, contradicting "the
run is not aborted". -/
theorem c2_counterexample :
    (scrubDeletedCoreDocumentVersionsCheck envDel stDel).units =
      [{ res := UnitRes.failed (UnitErr.deleteFailed "7/s/d1/h1/a"),
         ops := [Op.liveQuery 1 "d1" "h1" 0, Op.sourceQuery 1,
                 Op.blobList "7/s/d1/h1", Op.blobDelete "7/s/d1/h1/a"] }] ∧
    (scrubDeletedCoreDocumentVersionsCheck envDel stDel).st.docs = stDel.docs ∧
    (scrubDeletedCoreDocumentVersionsCheck envDel stDel).err =
      some (RunErr.unitFailed (UnitErr.deleteFailed "7/s/d1/h1/a")) ∧
    (scrubDeletedCoreDocumentVersionsCheck envDel stDel).reported = none := by
  refine ⟨?_, ?_, ?_, ?_⟩ <;> decide

/-- C2 (amended): when a blob delete of a unit fails, the unit purges no
metadata for its triple (the documents table is untouched by that unit
and no purge operation is issued); sibling units of the same batch are
not cancelled (each unit of a batch yields an outcome); but the failure
aborts the run — once any unit fails, later batches are not processed
and no success report is issued. -/
theorem c2_delete_failure_semantics :
    (∀ (env : Env) (st : St) (seen : List String) (ds : Nat) (doc : String)
       (t : Nat) (hsh : String) (e : UnitErr),
      (scrubDocumentBody env st seen ds doc t hsh).res = UnitRes.failed e →
      (scrubDocumentBody env st seen ds doc t hsh).st.docs = st.docs ∧
      ∀ a b c, Op.purge a b c ∉ (scrubDocumentBody env st seen ds doc t hsh).ops) ∧
    (∀ (env : Env) (chunk : List DocRow) (st : St) (seen : List String),
      (processChunk env chunk st seen).outs.length = chunk.length) ∧
    (∀ (env : Env) (st : St),
      (scrubDeletedCoreDocumentVersionsCheck env st).err ≠ none → (scrubDeletedCoreDocumentVersionsCheck env st).reported = none) := by
  refine ⟨?_, processChunk_outs_length, fun env st => (scrubCheck_report_spec env st).2⟩
  intro env st seen ds doc t hsh e hres
  have h := body_failed_frame env st seen ds doc t hsh e hres
  exact ⟨h.2.1, h.2.2⟩

/-- Witness for the amended C2 at the concrete failing-delete run. -/
theorem c2_witness :
    (scrubDocumentBody envDel stDel [] 1 "d1" 0 "h1").st.docs = stDel.docs ∧
    (scrubDeletedCoreDocumentVersionsCheck envDel stDel).reported = none :=
  ⟨(c2_delete_failure_semantics.1 envDel stDel [] 1 "d1" 0 "h1"
      (UnitErr.deleteFailed "7/s/d1/h1/a") (by decide)).1,
   c2_delete_failure_semantics.2.2 envDel stDel (by decide)⟩

/-! Claim C3. -/

/-- C3 as stated is false on the code: a unit whose `data_source` has no
source row throws, and the thrown error propagates out of
`Promise.all`: the run is aborted and the success report is never made,
contradicting "the run as a whole is not aborted ... and the run still
reports". -/
theorem c3_counterexample :
    (scrubDeletedCoreDocumentVersionsCheck env0 stNoSrc).err =
      some (RunErr.unitFailed (UnitErr.sourceNotFound 5)) ∧
    (scrubDeletedCoreDocumentVersionsCheck env0 stNoSrc).reported = none ∧
    (scrubDeletedCoreDocumentVersionsCheck env0 stNoSrc).st = stNoSrc := by
  refine ⟨?_, ?_, ?_⟩ <;> decide

/-- C3 (amended): a unit whose sourceId has no source-descriptor row
fails hard with no blob listing, no blob deletion and no metadata purge
for that unit (both stores and the dedup set are untouched by it), but
the error aborts the run: once any unit fails, no success report is
issued (sibling units of the failing batch still complete, later
batches do not run). -/
theorem c3_missing_source_semantics :
    (∀ (env : Env) (st : St) (seen : List String) (ds : Nat) (doc : String)
       (t : Nat) (hsh : String),
      hasMoreRecentSameHash st.docs ds doc hsh t = false →
      findDataSource st.sources ds = none →
      scrubDocumentBody env st seen ds doc t hsh =
        { st := st, seen := seen,
          ops := [Op.liveQuery ds doc hsh t, Op.sourceQuery ds],
          res := UnitRes.failed (UnitErr.sourceNotFound ds) }) ∧
    (∀ (env : Env) (st : St),
      (scrubDeletedCoreDocumentVersionsCheck env st).err ≠ none → (scrubDeletedCoreDocumentVersionsCheck env st).reported = none) := by
  refine ⟨?_, fun env st => (scrubCheck_report_spec env st).2⟩
  intro env st seen ds doc t hsh hl hfind
  rcases body_cases env st seen ds doc t hsh with ⟨hl', -⟩ | ⟨-, -, heq⟩ |
    ⟨src, files, attempted, -, hf, -⟩
  · rw [hl] at hl'; exact absurd hl' (by simp)
  · exact heq
  · rw [hfind] at hf; exact Option.noConfusion hf

/-- Witness for the amended C3 at the concrete missing-source run. -/
theorem c3_witness :
    scrubDocumentBody env0 stNoSrc [] 5 "d" 0 "h" =
      { st := stNoSrc, seen := [],
        ops := [Op.liveQuery 5 "d" "h" 0, Op.sourceQuery 5],
        res := UnitRes.failed (UnitErr.sourceNotFound 5) } ∧
    (scrubDeletedCoreDocumentVersionsCheck env0 stNoSrc).reported = none :=
  ⟨c3_missing_source_semantics.1 env0 stNoSrc [] 5 "d" 0 "h" (by decide) (by decide),
   c3_missing_source_semantics.2 env0 stNoSrc (by decide)⟩

/-! Claim C8. -/

/-- C8 as stated is false on the code: an error-free run that purged one
unit calls the success reporter exactly once, but with the empty
summary `\x7b\x7d` — there is no `unitsScrubbed` field carrying the purged
count (`reportSuccess(\x7b\x7d)` in the source; the count is only
logged). -/
theorem c8_counterexample :
    (scrubDeletedCoreDocumentVersionsCheck env0 stOne).err = none ∧
    countPurged (scrubDeletedCoreDocumentVersionsCheck env0 stOne).units = 1 ∧
    (scrubDeletedCoreDocumentVersionsCheck env0 stOne).reported = some none ∧
    (scrubDeletedCoreDocumentVersionsCheck env0 stOne).reported ≠
      some (some (countPurged (scrubDeletedCoreDocumentVersionsCheck env0 stOne).units)) := by
  refine ⟨?_, ?_, ?_, ?_⟩ <;> decide

/-- C8 (amended): when a run completes without error, the
success-reporting collaborator is invoked exactly once, with the empty
summary (carrying no `unitsScrubbed` count); the purged-unit count is
logged but not passed to the reporter. -/
theorem c8_report_empty_summary (env : Env) (st : St)
    (herr : (scrubDeletedCoreDocumentVersionsCheck env st).err = none) :
    (scrubDeletedCoreDocumentVersionsCheck env st).reported = some none :=
  (scrubCheck_report_spec env st).1 herr

/-- Witness for the amended C8 at a concrete error-free run. -/
theorem c8_witness : (scrubDeletedCoreDocumentVersionsCheck env0 stLiveW).reported = some none :=
  c8_report_empty_summary env0 stLiveW (by decide)

/-! Behavior when the bucket or service-account variable is missing. -/

theorem syncCheck_envfail (env : Env) (seen : List String) (d : DocRow)
    (henv : env.cfg.DUST_DATA_SOURCES_BUCKET = none ∨ env.cfg.SERVICE_ACCOUNT = none) :
    ∃ e, syncCheck env seen d = SyncRes.failedEnv e := by
  unfold syncCheck
  by_cases hb : env.cfg.DUST_DATA_SOURCES_BUCKET = none
  · exact ⟨UnitErr.envBucket, by simp [hb]⟩
  · have hs : env.cfg.SERVICE_ACCOUNT = none := henv.resolve_left hb
    exact ⟨UnitErr.envServiceAccount, by simp [hb, hs]⟩

theorem processSeq_envfail (env : Env) :
    ∀ (pairs : List (SyncRes × DocRow)),
      (∀ p ∈ pairs, ∃ e, p.1 = SyncRes.failedEnv e) →
      ∀ (st : St) (seen : List String),
        (processSeq env pairs st seen).st = st ∧
        (processSeq env pairs st seen).seen = seen ∧
        (processSeq env pairs st seen).outs.length = pairs.length ∧
        ∀ o ∈ (processSeq env pairs st seen).outs,
          o.ops = [] ∧ ∃ e, o.res = UnitRes.failed e := by
  intro pairs
  induction pairs with
  | nil =>
      intro _ st seen
      exact ⟨rfl, rfl, rfl, by simp [processSeq]⟩
  | cons p rest ih =>
      intro hall st seen
      obtain ⟨sr, d⟩ := p
      obtain ⟨e, he⟩ := hall (sr, d) (List.mem_cons_self _ _)
      dsimp at he
      subst he
      have ihh := ih (fun q hq => hall q (List.mem_cons_of_mem _ hq)) st seen
      simp only [processSeq, processUnit]
      refine ⟨ihh.1, ihh.2.1, by simp [ihh.2.2.1], ?_⟩
      intro o ho
      rcases List.mem_cons.1 ho with ho' | ho'
      · subst ho'
        exact ⟨rfl, e, rfl⟩
      · exact ihh.2.2.2 o ho'

theorem runChunks_envfail (env : Env)
    (henv : env.cfg.DUST_DATA_SOURCES_BUCKET = none ∨ env.cfg.SERVICE_ACCOUNT = none) :
    ∀ (chunks : List (List DocRow)) (st : St) (seen : List String),
      (runChunks env chunks st seen).st = st ∧
      (∀ o ∈ (runChunks env chunks st seen).outs,
        o.ops = [] ∧ ∃ e, o.res = UnitRes.failed e) ∧
      (∀ c cs, chunks = c :: cs → c ≠ [] →
        (runChunks env chunks st seen).err ≠ none) := by
  intro chunks
  induction chunks with
  | nil =>
      intro st seen
      exact ⟨rfl, by simp [runChunks], fun c cs h => List.noConfusion h⟩
  | cons c cs ih =>
      intro st seen
      have hall : ∀ p ∈ (c.map fun d => (syncCheck env seen d, d)),
          ∃ e, p.1 = SyncRes.failedEnv e := by
        intro p hp
        rcases List.mem_map.1 hp with ⟨d, -, hd⟩
        subst hd
        exact syncCheck_envfail env seen d henv
      have hseq := processSeq_envfail env _ hall st seen
      simp only [runChunks]
      cases hfe : firstErr (processChunk env c st seen).outs with
      | some e =>
          refine ⟨hseq.1, ?_, fun _ _ _ _ => by simp⟩
          intro o ho
          exact hseq.2.2.2 o ho
      | none =>
          by_cases hc : c = []
          · subst hc
            have houts : (processChunk env ([] : List DocRow) st seen).outs = [] := by
              simp [processChunk, processSeq]
            have hst : (processChunk env ([] : List DocRow) st seen).st = st := hseq.1
            have hseen : (processChunk env ([] : List DocRow) st seen).seen = seen := hseq.2.1
            dsimp only
            rw [hst, hseen, houts]
            have ihh := ih st seen
            refine ⟨ihh.1, ?_, ?_⟩
            · intro o ho
              rw [List.nil_append] at ho
              exact ihh.2.1 o ho
            · intro c' cs' heq hne
              have hceq : c' = ([] : List DocRow) := (List.cons.inj heq).1.symm
              exact absurd hceq hne
          · exfalso
            obtain ⟨o, ho⟩ : ∃ o, o ∈ (processChunk env c st seen).outs := by
              have hlen : (processChunk env c st seen).outs.length = c.length :=
                processChunk_outs_length env c st seen
              cases houts : (processChunk env c st seen).outs with
              | nil =>
                  rw [houts] at hlen
                  exact absurd (List.length_eq_zero.1 hlen.symm) hc
              | cons o os => exact ⟨o, houts ▸ List.mem_cons_self o os⟩
            obtain ⟨-, e, hres⟩ := hseq.2.2.2 o ho
            exact (firstErr_none_iff.1 hfe o ho e) hres

/-! Claim C9. -/

/-- C9 as stated is false on the code: only the database URI is checked
before processing; the bucket (and service-account) variables are
checked inside `scrubDocument`, after the deleted-candidate query — so
with the bucket variable missing the candidate fetch still happens
(the run then throws on the first unit). -/
theorem c9_counterexample :
    (scrubDeletedCoreDocumentVersionsCheck envNoBucket stOne).fetched = true ∧
    (scrubDeletedCoreDocumentVersionsCheck envNoBucket stOne).err =
      some (RunErr.unitFailed UnitErr.envBucket) := by
  refine ⟨?_, ?_⟩ <;> decide

/-- C9 (amended): a missing database URI aborts the run before any
processing — no candidate fetch, no unit outcome, no report; a missing
bucket or service-account variable still prevents every blob listing,
blob deletion and metadata purge (every unit fails in its synchronous
prefix, issuing no operation, and the stores are untouched) and makes
the run abort whenever at least one candidate exists — but only after
the deleted-candidate fetch. -/
theorem c9_config_abort :
    (∀ (env : Env) (st : St), env.cfg.CORE_DATABASE_URI = none →
      scrubDeletedCoreDocumentVersionsCheck env st =
        { st := st, fetched := false, units := [], reported := none,
          err := some RunErr.envDb }) ∧
    (∀ (env : Env) (st : St), env.cfg.CORE_DATABASE_URI ≠ none →
      (env.cfg.DUST_DATA_SOURCES_BUCKET = none ∨ env.cfg.SERVICE_ACCOUNT = none) →
      (scrubDeletedCoreDocumentVersionsCheck env st).st = st ∧ (scrubDeletedCoreDocumentVersionsCheck env st).fetched = true ∧
      (∀ o ∈ (scrubDeletedCoreDocumentVersionsCheck env st).units, o.ops = []) ∧
      (candidatesOf st ≠ [] → (scrubDeletedCoreDocumentVersionsCheck env st).err ≠ none)) := by
  constructor
  · intro env st hdb
    unfold scrubDeletedCoreDocumentVersionsCheck
    simp [hdb]
  · intro env st hdb henv
    have hrc := runChunks_envfail env henv
      (chunksOf (candidatesOf st).length (candidatesOf st)) st []
    unfold scrubDeletedCoreDocumentVersionsCheck
    simp only [if_neg hdb]
    cases herr : (runChunks env (chunksOf (candidatesOf st).length (candidatesOf st))
        st []).err with
    | some e =>
        refine ⟨hrc.1, rfl, fun o ho => (hrc.2.1 o ho).1, fun _ => by simp⟩
    | none =>
        refine ⟨hrc.1, rfl, fun o ho => (hrc.2.1 o ho).1, ?_⟩
        intro hcands
        exfalso
        obtain ⟨d, rest, hdr⟩ := List.exists_cons_of_ne_nil hcands
        have hchunks : chunksOf (candidatesOf st).length (candidatesOf st) =
            ((d :: rest).take 32) :: chunksOf rest.length ((d :: rest).drop 32) := by
          rw [hdr]
          rfl
        have hne : (d :: rest).take 32 ≠ [] := by simp
        exact hrc.2.2 _ _ hchunks hne herr

/-- Witness for the amended C9: missing database URI aborts with nothing
done; missing bucket leaves the stores untouched with no unit
operations. -/
theorem c9_witness :
    scrubDeletedCoreDocumentVersionsCheck envNoDb stOne =
      { st := stOne, fetched := false, units := [], reported := none,
        err := some RunErr.envDb } ∧
    (scrubDeletedCoreDocumentVersionsCheck envNoBucket stOne).st = stOne ∧
    (scrubDeletedCoreDocumentVersionsCheck envNoBucket stOne).err ≠ none :=
  ⟨c9_config_abort.1 envNoDb stOne rfl,
   (c9_config_abort.2 envNoBucket stOne (by decide) (Or.inl rfl)).1,
   (c9_config_abort.2 envNoBucket stOne (by decide) (Or.inl rfl)).2.2.2 (by decide)⟩

/-! Navigation lemmas for per-unit outcomes inside a run. -/

theorem lt_length_of_getElem? {α : Type} {l : List α} {i : Nat} {a : α}
    (h : l[i]? = some a) : i < l.length := by
  by_contra hc
  rw [List.getElem?_eq_none (by omega)] at h
  exact Option.noConfusion h

theorem processSeq_get_dup (env : Env) :
    ∀ (pairs : List (SyncRes × DocRow)) (st : St) (seen : List String)
      (p : Nat) (d : DocRow),
      pairs[p]? = some (SyncRes.dup, d) →
      (processSeq env pairs st seen).outs[p]? =
        some { res := UnitRes.skipDup, ops := [] } := by
  intro pairs
  induction pairs with
  | nil =>
      intro st seen p d hp
      simp at hp
  | cons q rest ih =>
      intro st seen p d hp
      obtain ⟨sr, d0⟩ := q
      cases p with
      | zero =>
          have hq : (sr, d0) = (SyncRes.dup, d) := by
            simpa using hp
          have hsr : sr = SyncRes.dup := (Prod.mk.inj hq).1
          subst hsr
          simp [processSeq, processUnit]
      | succ p' =>
          have hp' : rest[p']? = some (SyncRes.dup, d) := by simpa using hp
          simp only [processSeq]
          simpa using ih _ _ p' d hp'

theorem processSeq_get_envfail (env : Env) :
    ∀ (pairs : List (SyncRes × DocRow)) (st : St) (seen : List String)
      (p : Nat) (d : DocRow) (e : UnitErr),
      pairs[p]? = some (SyncRes.failedEnv e, d) →
      (processSeq env pairs st seen).outs[p]? =
        some { res := UnitRes.failed e, ops := [] } := by
  intro pairs
  induction pairs with
  | nil =>
      intro st seen p d e hp
      simp at hp
  | cons q rest ih =>
      intro st seen p d e hp
      obtain ⟨sr, d0⟩ := q
      cases p with
      | zero =>
          have hq : (sr, d0) = (SyncRes.failedEnv e, d) := by simpa using hp
          have hsr : sr = SyncRes.failedEnv e := (Prod.mk.inj hq).1
          subst hsr
          simp [processSeq, processUnit]
      | succ p' =>
          have hp' : rest[p']? = some (SyncRes.failedEnv e, d) := by simpa using hp
          simp only [processSeq]
          simpa using ih _ _ p' d e hp'

theorem processSeq_purged_uid (env : Env) :
    ∀ (pairs : List (SyncRes × DocRow)) (st : St) (seen : List String)
      (p : Nat) (sr : SyncRes) (d : DocRow) (o : UnitOutcome),
      pairs[p]? = some (sr, d) →
      (processSeq env pairs st seen).outs[p]? = some o →
      o.res = UnitRes.purged →
      uidOf d ∈ (processSeq env pairs st seen).seen := by
  intro pairs
  induction pairs with
  | nil =>
      intro st seen p sr d o hp
      simp at hp
  | cons q rest ih =>
      intro st seen p sr d o hp ho hres
      obtain ⟨sr0, d0⟩ := q
      cases p with
      | zero =>
          have hq : (sr0, d0) = (sr, d) := by simpa using hp
          have hd0 : d0 = d := (Prod.mk.inj hq).2
          subst hd0
          simp only [processSeq] at ho ⊢
          rw [List.getElem?_cons_zero] at ho
          have ho0 := Option.some.inj ho
          rw [← ho0] at hres
          have hres0 : (processUnit env sr0 st seen d0).res = UnitRes.purged := hres
          cases sr0 with
          | failedEnv e => simp [processUnit] at hres0
          | dup => simp [processUnit] at hres0
          | go =>
              have huid := body_purged_uid env st seen d0.data_source d0.document_id
                d0.created d0.hash (by simpa [processUnit] using hres0)
              exact processSeq_seen_super env rest _ _ _ huid
      | succ p' =>
          have hp' : rest[p']? = some (sr, d) := by simpa using hp
          simp only [processSeq] at ho ⊢
          exact ih _ _ p' sr d o hp' (by simpa using ho) hres

theorem runChunks_dup_later (env : Env) :
    ∀ (fuel : Nat) (cands : List DocRow) (st : St) (seen : List String)
      (u : String) (j : Nat) (c : DocRow),
      cands.length ≤ fuel → u ∈ seen → cands[j]? = some c → uidOf c = u →
      (runChunks env (chunksOf fuel cands) st seen).err = none →
      (runChunks env (chunksOf fuel cands) st seen).outs[j]? =
        some { res := UnitRes.skipDup, ops := [] } := by
  intro fuel
  induction fuel with
  | zero =>
      intro cands st seen u j c hfuel hu hj huid herr
      have : cands = [] := List.length_eq_zero.1 (Nat.le_zero.1 hfuel)
      subst this
      simp at hj
  | succ fuel ih =>
      intro cands st seen u j c hfuel hu hj huid herr
      cases cands with
      | nil => simp at hj
      | cons d rest =>
      have hchunks : chunksOf (fuel + 1) (d :: rest) =
          ((d :: rest).take 32) :: chunksOf fuel ((d :: rest).drop 32) := rfl
      rw [hchunks] at herr ⊢
      simp only [runChunks] at herr ⊢
      cases hfe : firstErr (processChunk env ((d :: rest).take 32) st seen).outs with
      | some e =>
          rw [hfe] at herr
          simp at herr
      | none =>
          rw [hfe] at herr
          dsimp only at herr ⊢
          have hjlen : j < (d :: rest).length := lt_length_of_getElem? hj
          have houtlen : (processChunk env ((d :: rest).take 32) st seen).outs.length =
              min 32 (d :: rest).length := by
            rw [processChunk_outs_length, List.length_take]
          by_cases hj32 : j < 32
          · have hcj : ((d :: rest).take 32)[j]? = some c := by
              rw [List.getElem?_take_of_lt hj32]
              exact hj
            have hpair : (((d :: rest).take 32).map
                fun d' => (syncCheck env seen d', d'))[j]? =
                some (syncCheck env seen c, c) := by
              rw [List.getElem?_map, hcj]
              rfl
            have hsync : syncCheck env seen c = SyncRes.dup := by
              unfold syncCheck
              by_cases hb : env.cfg.DUST_DATA_SOURCES_BUCKET = none
              · exfalso
                have hout := processSeq_get_envfail env
                  (((d :: rest).take 32).map fun d' => (syncCheck env seen d', d'))
                  st seen j c UnitErr.envBucket
                  (by rw [List.getElem?_map, hcj]; simp [syncCheck, hb])
                have hmem := List.getElem?_mem hout
                exact (firstErr_none_iff.1 hfe _ hmem UnitErr.envBucket) rfl
              · by_cases hsa : env.cfg.SERVICE_ACCOUNT = none
                · exfalso
                  have hout := processSeq_get_envfail env
                    (((d :: rest).take 32).map fun d' => (syncCheck env seen d', d'))
                    st seen j c UnitErr.envServiceAccount
                    (by rw [List.getElem?_map, hcj]; simp [syncCheck, hb, hsa])
                  have hmem := List.getElem?_mem hout
                  exact (firstErr_none_iff.1 hfe _ hmem UnitErr.envServiceAccount) rfl
                · have hmemu : uidStr c.data_source c.document_id c.hash ∈ seen := by
                    rw [show uidStr c.data_source c.document_id c.hash = uidOf c from rfl,
                      huid]
                    exact hu
                  simp [hb, hsa, hmemu]
            have hout := processSeq_get_dup env
              (((d :: rest).take 32).map fun d' => (syncCheck env seen d', d'))
              st seen j c
              (by rw [List.getElem?_map, hcj]; simp [hsync])
            rw [List.getElem?_append_left (by omega)]
            exact hout
          · have hlen32 : (processChunk env ((d :: rest).take 32) st seen).outs.length = 32 := by
              rw [houtlen]
              omega
            rw [List.getElem?_append_right (by omega)]
            rw [hlen32]
            have hdropj : ((d :: rest).drop 32)[j - 32]? = some c := by
              rw [List.getElem?_drop]
              have : 32 + (j - 32) = j := by omega
              rw [this]
              exact hj
            have hulater : u ∈ (processChunk env ((d :: rest).take 32) st seen).seen :=
              processChunk_seen_super env _ st seen u hu
            have hfuel' : ((d :: rest).drop 32).length ≤ fuel := by
              rw [List.length_drop]
              simp only [List.length_cons] at hfuel ⊢
              omega
            exact ih _ _ _ u (j - 32) c hfuel' hulater hdropj huid herr

theorem runChunks_purged_then_skip (env : Env) :
    ∀ (fuel : Nat) (cands : List DocRow) (st : St) (seen : List String)
      (i j : Nat) (c₁ c₂ : DocRow) (o₁ : UnitOutcome),
      cands.length ≤ fuel → i / 32 < j / 32 →
      cands[i]? = some c₁ → cands[j]? = some c₂ → uidOf c₁ = uidOf c₂ →
      (runChunks env (chunksOf fuel cands) st seen).err = none →
      (runChunks env (chunksOf fuel cands) st seen).outs[i]? = some o₁ →
      o₁.res = UnitRes.purged →
      (runChunks env (chunksOf fuel cands) st seen).outs[j]? =
        some { res := UnitRes.skipDup, ops := [] } := by
  intro fuel
  induction fuel with
  | zero =>
      intro cands st seen i j c₁ c₂ o₁ hfuel hij hi hj huid herr hoi hres
      have hnil : cands = [] := List.length_eq_zero.1 (Nat.le_zero.1 hfuel)
      subst hnil
      simp at hi
  | succ fuel ih =>
      intro cands st seen i j c₁ c₂ o₁ hfuel hij hi hj huid herr hoi hres
      cases cands with
      | nil => simp at hi
      | cons d rest =>
      have hchunks : chunksOf (fuel + 1) (d :: rest) =
          ((d :: rest).take 32) :: chunksOf fuel ((d :: rest).drop 32) := rfl
      rw [hchunks] at herr hoi ⊢
      simp only [runChunks] at herr hoi ⊢
      cases hfe : firstErr (processChunk env ((d :: rest).take 32) st seen).outs with
      | some e =>
          rw [hfe] at herr
          simp at herr
      | none =>
          rw [hfe] at herr hoi
          dsimp only at herr hoi ⊢
          have hilen : i < (d :: rest).length := lt_length_of_getElem? hi
          have hjlen : j < (d :: rest).length := lt_length_of_getElem? hj
          have houtlen : (processChunk env ((d :: rest).take 32) st seen).outs.length =
              min 32 (d :: rest).length := by
            rw [processChunk_outs_length, List.length_take]
          by_cases hi32 : i < 32
          · have hj32 : 32 ≤ j := by omega
            have hci : ((d :: rest).take 32)[i]? = some c₁ := by
              rw [List.getElem?_take_of_lt hi32]
              exact hi
            have hoi' : (processChunk env ((d :: rest).take 32) st seen).outs[i]? =
                some o₁ := by
              rw [List.getElem?_append_left (by omega)] at hoi
              exact hoi
            have huidin : uidOf c₁ ∈ (processChunk env ((d :: rest).take 32) st seen).seen := by
              refine processSeq_purged_uid env
                (((d :: rest).take 32).map fun d' => (syncCheck env seen d', d'))
                st seen i (syncCheck env seen c₁) c₁ o₁ ?_ hoi' hres
              rw [List.getElem?_map, hci]
              rfl
            have hdropj : ((d :: rest).drop 32)[j - 32]? = some c₂ := by
              rw [List.getElem?_drop]
              have heq32 : 32 + (j - 32) = j := by omega
              rw [heq32]
              exact hj
            have hfuel' : ((d :: rest).drop 32).length ≤ fuel := by
              rw [List.length_drop]
              simp only [List.length_cons] at hfuel ⊢
              omega
            have hres2 := runChunks_dup_later env fuel ((d :: rest).drop 32)
              (processChunk env ((d :: rest).take 32) st seen).st
              (processChunk env ((d :: rest).take 32) st seen).seen
              (uidOf c₁) (j - 32) c₂ hfuel' huidin hdropj huid.symm herr
            have hlen32 : (processChunk env ((d :: rest).take 32) st seen).outs.length = 32 := by
              rw [houtlen]
              omega
            rw [List.getElem?_append_right (by omega), hlen32]
            exact hres2
          · have hj32 : 32 ≤ j := by omega
            have hlen32 : (processChunk env ((d :: rest).take 32) st seen).outs.length = 32 := by
              rw [houtlen]
              omega
            rw [List.getElem?_append_right (by omega), hlen32] at hoi
            rw [List.getElem?_append_right (by omega), hlen32]
            have hdropi : ((d :: rest).drop 32)[i - 32]? = some c₁ := by
              rw [List.getElem?_drop]
              have heq32 : 32 + (i - 32) = i := by omega
              rw [heq32]
              exact hi
            have hdropj : ((d :: rest).drop 32)[j - 32]? = some c₂ := by
              rw [List.getElem?_drop]
              have heq32 : 32 + (j - 32) = j := by omega
              rw [heq32]
              exact hj
            have hfuel' : ((d :: rest).drop 32).length ≤ fuel := by
              rw [List.length_drop]
              simp only [List.length_cons] at hfuel ⊢
              omega
            have hij' : (i - 32) / 32 < (j - 32) / 32 := by omega
            exact ih _ _ _ (i - 32) (j - 32) c₁ c₂ o₁ hfuel' hij' hdropi hdropj huid
              herr hoi hres

/-- Bridge from the check function to its chunk processing when the run
is error-free. -/
theorem scrubCheck_ok_spec (env : Env) (st : St)
    (herr : (scrubDeletedCoreDocumentVersionsCheck env st).err = none) :
    env.cfg.CORE_DATABASE_URI ≠ none ∧
    (runChunks env (chunksOf (candidatesOf st).length (candidatesOf st)) st []).err =
      none ∧
    (scrubDeletedCoreDocumentVersionsCheck env st).units =
      (runChunks env (chunksOf (candidatesOf st).length (candidatesOf st)) st []).outs ∧
    (scrubDeletedCoreDocumentVersionsCheck env st).st =
      (runChunks env (chunksOf (candidatesOf st).length (candidatesOf st)) st []).st := by
  by_cases hdb : env.cfg.CORE_DATABASE_URI = none
  · exfalso
    unfold scrubDeletedCoreDocumentVersionsCheck at herr
    rw [if_pos hdb] at herr
    exact Option.noConfusion herr
  · simp only [scrubDeletedCoreDocumentVersionsCheck, if_neg hdb] at herr ⊢
    cases hrc : (runChunks env (chunksOf (candidatesOf st).length (candidatesOf st))
        st []).err with
    | some e =>
        rw [hrc] at herr
        exact absurd herr (by simp)
    | none => exact ⟨hdb, rfl, rfl, rfl⟩

/-! Claim C6. -/

/-- C6 as stated is false on the code: two candidates with the same
triple that land in the same chunk both pass the seen-set check (it
runs in each unit's synchronous prefix, before any unit finishes and
marks the key), so both perform blob listing — two listings are
issued, both units purge, and neither is counted as skipped. -/
theorem c6_counterexample :
    (candidatesOf stDup).map tripleOf = [(1, "d", "h"), (1, "d", "h")] ∧
    (scrubDeletedCoreDocumentVersionsCheck env0 stDup).err = none ∧
    (scrubDeletedCoreDocumentVersionsCheck env0 stDup).units.map UnitOutcome.res =
      [UnitRes.purged, UnitRes.purged] ∧
    countBlobLists (scrubDeletedCoreDocumentVersionsCheck env0 stDup).units = 2 := by
  refine ⟨?_, ?_, ?_, ?_⟩ <;> decide

/-- C6 (amended): for two deleted-version candidates with the same
`(sourceId, documentId, contentHash)` triple landing in different
batches of an error-free run, if the earlier one purged then the later
one is short-circuited by the seen-set check: it issues no operation at
all (no listing, no delete, no purge) and is counted as skipped.
(When both land in the same batch, both perform blob listing — see the
counterexample.) -/
theorem c6_duplicate_collapse (env : Env) (st : St) (i j : Nat)
    (c₁ c₂ : DocRow) (o₁ : UnitOutcome)
    (hij : i / 32 < j / 32)
    (hci : (candidatesOf st)[i]? = some c₁)
    (hcj : (candidatesOf st)[j]? = some c₂)
    (huid : uidOf c₁ = uidOf c₂)
    (herr : (scrubDeletedCoreDocumentVersionsCheck env st).err = none)
    (hoi : (scrubDeletedCoreDocumentVersionsCheck env st).units[i]? = some o₁)
    (hres : o₁.res = UnitRes.purged) :
    (scrubDeletedCoreDocumentVersionsCheck env st).units[j]? = some { res := UnitRes.skipDup, ops := [] } := by
  obtain ⟨-, hrc, hunits, -⟩ := scrubCheck_ok_spec env st herr
  rw [hunits] at hoi ⊢
  exact runChunks_purged_then_skip env (candidatesOf st).length (candidatesOf st)
    st [] i j c₁ c₂ o₁ le_rfl hij hci hcj huid hrc hoi hres

/-- Witness for the amended C6: candidates 0 and 32 of `stDup33` share a
triple; unit 0 purges and unit 32 is skipped with no operations. -/
theorem c6_witness :
    (scrubDeletedCoreDocumentVersionsCheck env0 stDup33).units[32]? =
      some { res := UnitRes.skipDup, ops := [] } :=
  c6_duplicate_collapse env0 stDup33 0 32
    { id := 1, created := 0, data_source := 1, document_id := "d",
      hash := "h", status := "deleted" }
    { id := 2, created := 0, data_source := 1, document_id := "d",
      hash := "h", status := "deleted" }
    { res := UnitRes.purged,
      ops := [Op.liveQuery 1 "d" "h" 0, Op.sourceQuery 1, Op.blobList "7/s/d/h",
              Op.purge 1 "d" "h"] }
    (by decide) (by decide) (by decide) (by decide) (by decide) (by decide) (by decide)

/-! Invariants of an error-free run, toward idempotence. -/

/-- No row of `docs` is a deleted row of the given triple. -/
def noDeletedTriple (docs : List DocRow) (ds : Nat) (doc hsh : String) : Prop :=
  ∀ r ∈ docs, ¬(matchesTriple r ds doc hsh = true ∧ r.status = "deleted")

/-- A candidate row is handled by a state: either its row is gone from the
metadata store, or a live version with its hash created at or after it
exists. -/
def Handled (st : St) (c : DocRow) : Prop :=
  c ∉ st.docs ∨
  hasMoreRecentSameHash st.docs c.data_source c.document_id c.hash c.created = true

/-- Every dedup-set entry is either a blob name of the initial store or
the key of a candidate whose deleted rows are all purged. -/
def InvSeen (st0 : St) (cands : List DocRow) (st : St) (seen : List String) : Prop :=
  ∀ u ∈ seen, u ∈ st0.blobs ∨
    ∃ c ∈ cands, u = uidOf c ∧
      noDeletedTriple st.docs c.data_source c.document_id c.hash

theorem stepSt_liveMatch {s s' : St} {ds : Nat} {doc hsh : String} {t : Nat}
    (hstep : StepSt s s')
    (hl : hasMoreRecentSameHash s.docs ds doc hsh t = true) :
    hasMoreRecentSameHash s'.docs ds doc hsh t = true := by
  obtain ⟨r, hr, hds, hdoc, hh, hstat, hle⟩ := hasMoreRecentSameHash_iff.1 hl
  exact hasMoreRecentSameHash_iff.2 ⟨r, hstep.2.1 r hr hstat, hds, hdoc, hh, hstat, hle⟩

theorem stepSt_handled {s s' : St} {c : DocRow} (hstep : StepSt s s')
    (hh : Handled s c) : Handled s' c := by
  rcases hh with hh | hh
  · exact Or.inl fun hmem => hh (hstep.1 c hmem)
  · exact Or.inr (stepSt_liveMatch hstep hh)

theorem stepSt_noDeletedTriple {s s' : St} {ds : Nat} {doc hsh : String}
    (hstep : StepSt s s') (hnd : noDeletedTriple s.docs ds doc hsh) :
    noDeletedTriple s'.docs ds doc hsh :=
  fun r hr => hnd r (hstep.1 r hr)

theorem stepSt_invSeen {st0 : St} {cands : List DocRow} {s s' : St}
    {seen : List String} (hstep : StepSt s s')
    (hinv : InvSeen st0 cands s seen) : InvSeen st0 cands s' seen := by
  intro u hu
  rcases hinv u hu with h | ⟨c, hc, hu', hnd⟩
  · exact Or.inl h
  · exact Or.inr ⟨c, hc, hu', stepSt_noDeletedTriple hstep hnd⟩

theorem body_live_eq (env : Env) (st : St) (seen : List String)
    (ds : Nat) (doc : String) (t : Nat) (hsh : String)
    (hl : hasMoreRecentSameHash st.docs ds doc hsh t = true) :
    scrubDocumentBody env st seen ds doc t hsh =
      { st := st, seen := seen, ops := [Op.liveQuery ds doc hsh t],
        res := UnitRes.skipLive } := by
  rcases body_cases env st seen ds doc t hsh with ⟨-, heq⟩ | ⟨hl', -, -⟩ |
    ⟨src, files, attempted, hl', -⟩
  · exact heq
  · rw [hl] at hl'; exact absurd hl' (by simp)
  · rw [hl] at hl'; exact absurd hl' (by simp)

theorem syncCheck_eq_dup {env : Env} {seen : List String} {d : DocRow}
    (h : syncCheck env seen d = SyncRes.dup) : uidOf d ∈ seen := by
  unfold syncCheck at h
  by_cases hb : env.cfg.DUST_DATA_SOURCES_BUCKET = none
  · rw [if_pos hb] at h
    exact SyncRes.noConfusion h
  · rw [if_neg hb] at h
    by_cases hsa : env.cfg.SERVICE_ACCOUNT = none
    · rw [if_pos hsa] at h
      exact SyncRes.noConfusion h
    · rw [if_neg hsa] at h
      by_cases hcont : seen.contains (uidStr d.data_source d.document_id d.hash) = true
      · exact List.mem_of_elem_eq_true hcont
      · rw [if_neg ?_] at h
        · exact SyncRes.noConfusion h
        · intro hmem
          exact hcont hmem

theorem syncCheck_nil_go {env : Env} {d : DocRow}
    (hb : env.cfg.DUST_DATA_SOURCES_BUCKET ≠ none)
    (hsa : env.cfg.SERVICE_ACCOUNT ≠ none) :
    syncCheck env [] d = SyncRes.go := by
  unfold syncCheck
  rw [if_neg hb, if_neg hsa, if_neg]
  simp

theorem chunksOf_join : ∀ (fuel : Nat) (l : List DocRow), l.length ≤ fuel →
    (chunksOf fuel l).flatten = l := by
  intro fuel
  induction fuel with
  | zero =>
      intro l hl
      have : l = [] := List.length_eq_zero.1 (Nat.le_zero.1 hl)
      subst this
      rfl
  | succ fuel ih =>
      intro l hl
      cases l with
      | nil => rfl
      | cons d rest =>
          show ((d :: rest).take 32 :: chunksOf fuel ((d :: rest).drop 32)).flatten = d :: rest
          rw [List.flatten_cons]
          rw [ih ((d :: rest).drop 32) (by simp_all; omega)]
          exact List.take_append_drop 32 (d :: rest)

theorem chunksOf_mem_sub : ∀ (fuel : Nat) (l : List DocRow) (ch : List DocRow),
    ch ∈ chunksOf fuel l → ∀ x ∈ ch, x ∈ l := by
  intro fuel
  induction fuel with
  | zero =>
      intro l ch hch
      simp [chunksOf] at hch
  | succ fuel ih =>
      intro l ch hch x hx
      cases l with
      | nil => simp [chunksOf] at hch
      | cons d rest =>
          rcases List.mem_cons.1 hch with hch' | hch'
          · subst hch'
            exact List.take_subset 32 (d :: rest) hx
          · exact List.drop_subset 32 (d :: rest) (ih _ ch hch' x hx)

theorem body_sound (env : Env) (st0 : St) (cands : List DocRow)
    (hdel : ∀ c ∈ cands, c.status = "deleted")
    (st : St) (seen : List String) (d : DocRow) (hd : d ∈ cands)
    (hblobs : ∀ n ∈ st.blobs, n ∈ st0.blobs)
    (hinv : InvSeen st0 cands st seen)
    (hok : ∀ e, (scrubDocumentBody env st seen d.data_source d.document_id
      d.created d.hash).res ≠ UnitRes.failed e) :
    InvSeen st0 cands
      (scrubDocumentBody env st seen d.data_source d.document_id d.created d.hash).st
      (scrubDocumentBody env st seen d.data_source d.document_id d.created d.hash).seen ∧
    (∀ n ∈ (scrubDocumentBody env st seen d.data_source d.document_id
      d.created d.hash).st.blobs, n ∈ st0.blobs) ∧
    Handled (scrubDocumentBody env st seen d.data_source d.document_id
      d.created d.hash).st d := by
  rcases body_cases env st seen d.data_source d.document_id d.created d.hash with
    ⟨hl, heq⟩ | ⟨-, -, heq⟩ |
    ⟨src, files, attempted, -, -, hfiles, -, ⟨f, -, heq⟩ | ⟨-, heq⟩⟩
  · rw [heq]
    exact ⟨hinv, hblobs, Or.inr hl⟩
  · rw [heq] at hok
    exact absurd rfl (hok (UnitErr.sourceNotFound d.data_source))
  · rw [heq] at hok
    exact absurd rfl (hok (UnitErr.deleteFailed f))
  · rw [heq]
    refine ⟨?_, ?_, ?_⟩
    · intro u hu
      rcases List.mem_append.1 hu with hu' | hu'
      · rcases List.mem_append.1 hu' with hold | hfile
        · rcases hinv u hold with h | ⟨c', hc', hu'', hnd⟩
          · exact Or.inl h
          · refine Or.inr ⟨c', hc', hu'', ?_⟩
            intro r hr
            exact hnd r (purgeQuery_subset r hr)
        · refine Or.inl (hblobs u ?_)
          exact listFiles_subset u (hfiles ▸ hfile)
      · have hu'' : u = uidStr d.data_source d.document_id d.hash :=
          List.mem_singleton.1 hu'
        refine Or.inr ⟨d, hd, hu'', ?_⟩
        intro r hr
        exact (mem_purgeQuery.1 hr).2
    · intro n hn
      exact hblobs n (List.mem_filter.1 hn).1
    · exact Or.inl (self_not_mem_purgeQuery (hdel d hd))

theorem processSeq_sound (env : Env) (st0 : St) (cands : List DocRow)
    (hdel : ∀ c ∈ cands, c.status = "deleted")
    (hinj : ∀ c₁ ∈ cands, ∀ c₂ ∈ cands, uidOf c₁ = uidOf c₂ →
      tripleOf c₁ = tripleOf c₂)
    (hablob : ∀ c ∈ cands, uidOf c ∉ st0.blobs) :
    ∀ (pairs : List (SyncRes × DocRow)) (st : St) (seen : List String),
      (∀ p ∈ pairs, p.2 ∈ cands ∧ (p.1 = SyncRes.dup → uidOf p.2 ∈ seen)) →
      (∀ n ∈ st.blobs, n ∈ st0.blobs) →
      InvSeen st0 cands st seen →
      (∀ o ∈ (processSeq env pairs st seen).outs, ∀ e, o.res ≠ UnitRes.failed e) →
      InvSeen st0 cands (processSeq env pairs st seen).st
        (processSeq env pairs st seen).seen ∧
      (∀ n ∈ (processSeq env pairs st seen).st.blobs, n ∈ st0.blobs) ∧
      (∀ p ∈ pairs, Handled (processSeq env pairs st seen).st p.2) := by
  intro pairs
  induction pairs with
  | nil =>
      intro st seen hp hblobs hinv hok
      exact ⟨hinv, hblobs, by simp⟩
  | cons q rest ih =>
      intro st seen hp hblobs hinv hok
      obtain ⟨sr, d⟩ := q
      have hd : d ∈ cands := (hp (sr, d) (List.mem_cons_self _ _)).1
      have hok0 : ∀ e, (processUnit env sr st seen d).res ≠ UnitRes.failed e := by
        intro e he
        refine hok ⟨(processUnit env sr st seen d).res,
          (processUnit env sr st seen d).ops⟩ (List.mem_cons_self _ _) e he
      have hokRest : ∀ o ∈ (processSeq env rest (processUnit env sr st seen d).st
          (processUnit env sr st seen d).seen).outs, ∀ e, o.res ≠ UnitRes.failed e := by
        intro o ho e he
        exact hok o (List.mem_cons_of_mem _ ho) e he
      cases sr with
      | failedEnv e => exact absurd rfl (hok0 e)
      | dup =>
          have hu : uidOf d ∈ seen := (hp (SyncRes.dup, d) (List.mem_cons_self _ _)).2 rfl
          have hnd : noDeletedTriple st.docs d.data_source d.document_id d.hash := by
            rcases hinv (uidOf d) hu with hblob | ⟨c', hc', huid, hnd'⟩
            · exact absurd hblob (hablob d hd)
            · have htr := hinj d hd c' hc' huid
              have h1 : d.data_source = c'.data_source := congrArg Prod.fst htr
              have h2 : d.document_id = c'.document_id :=
                congrArg (fun t => t.2.1) htr
              have h3 : d.hash = c'.hash := congrArg (fun t => t.2.2) htr
              rw [h1, h2, h3]
              exact hnd'
          have hhandled : Handled st d := by
            left
            intro hmem
            exact hnd d hmem ⟨matchesTriple_self d, hdel d hd⟩
          have hrest := ih st seen
            (fun p hp' => (hp p (List.mem_cons_of_mem _ hp')))
            hblobs hinv hokRest
          refine ⟨hrest.1, hrest.2.1, ?_⟩
          intro p hp'
          rcases List.mem_cons.1 hp' with hp'' | hp''
          · rw [hp'']
            exact stepSt_handled (processSeq_stepSt env rest st seen) hhandled
          · exact hrest.2.2 p hp''
      | go =>
          have hb := body_sound env st0 cands hdel st seen d hd hblobs hinv hok0
          have hrest := ih (scrubDocumentBody env st seen d.data_source
              d.document_id d.created d.hash).st
            (scrubDocumentBody env st seen d.data_source d.document_id
              d.created d.hash).seen
            (fun p hp' => ⟨(hp p (List.mem_cons_of_mem _ hp')).1,
              fun hdup => body_seen_super env st seen d.data_source d.document_id
                d.created d.hash (uidOf p.2)
                ((hp p (List.mem_cons_of_mem _ hp')).2 hdup)⟩)
            hb.2.1 hb.1 hokRest
          refine ⟨hrest.1, hrest.2.1, ?_⟩
          intro p hp'
          rcases List.mem_cons.1 hp' with hp'' | hp''
          · rw [hp'']
            exact stepSt_handled (processSeq_stepSt env rest _ _) hb.2.2
          · exact hrest.2.2 p hp''

theorem runChunks_sound (env : Env) (st0 : St) (cands : List DocRow)
    (hdel : ∀ c ∈ cands, c.status = "deleted")
    (hinj : ∀ c₁ ∈ cands, ∀ c₂ ∈ cands, uidOf c₁ = uidOf c₂ →
      tripleOf c₁ = tripleOf c₂)
    (hablob : ∀ c ∈ cands, uidOf c ∉ st0.blobs) :
    ∀ (chunks : List (List DocRow)) (st : St) (seen : List String),
      (∀ ch ∈ chunks, ∀ c ∈ ch, c ∈ cands) →
      (∀ n ∈ st.blobs, n ∈ st0.blobs) →
      InvSeen st0 cands st seen →
      (runChunks env chunks st seen).err = none →
      ∀ ch ∈ chunks, ∀ c ∈ ch, Handled (runChunks env chunks st seen).st c := by
  intro chunks
  induction chunks with
  | nil =>
      intro st seen hmem hblobs hinv herr ch hch
      exact absurd hch (List.not_mem_nil ch)
  | cons c cs ih =>
      intro st seen hmem hblobs hinv herr
      simp only [runChunks] at herr ⊢
      cases hfe : firstErr (processChunk env c st seen).outs with
      | some e =>
          rw [hfe] at herr
          simp at herr
      | none =>
          rw [hfe] at herr
          dsimp only at herr ⊢
          have hnofail : ∀ o ∈ (processChunk env c st seen).outs,
              ∀ e, o.res ≠ UnitRes.failed e := firstErr_none_iff.1 hfe
          have hpairs : ∀ p ∈ (c.map fun d => (syncCheck env seen d, d)),
              p.2 ∈ cands ∧ (p.1 = SyncRes.dup → uidOf p.2 ∈ seen) := by
            intro p hp
            rcases List.mem_map.1 hp with ⟨d, hd, hd'⟩
            subst hd'
            exact ⟨hmem c (List.mem_cons_self _ _) d hd,
              fun hdup => syncCheck_eq_dup hdup⟩
          have hps := processSeq_sound env st0 cands hdel hinj hablob
            (c.map fun d => (syncCheck env seen d, d)) st seen hpairs hblobs hinv
            hnofail
          have hrest := ih (processChunk env c st seen).st
            (processChunk env c st seen).seen
            (fun ch hch => hmem ch (List.mem_cons_of_mem _ hch))
            hps.2.1 hps.1 herr
          intro ch hch c' hc'
          rcases List.mem_cons.1 hch with hch' | hch'
          · subst hch'
            have hh : Handled (processChunk env ch st seen).st c' :=
              hps.2.2 (syncCheck env seen c', c')
                (List.mem_map.2 ⟨c', hc', rfl⟩)
            exact stepSt_handled (runChunks_stepSt env cs _ _) hh
          · exact hrest ch hch' c' hc'

theorem scrubCheck_live_covered (env : Env) (st : St)
    (herr : (scrubDeletedCoreDocumentVersionsCheck env st).err = none)
    (hinj : ∀ c₁ ∈ candidatesOf st, ∀ c₂ ∈ candidatesOf st,
      uidOf c₁ = uidOf c₂ → tripleOf c₁ = tripleOf c₂)
    (hablob : ∀ c ∈ candidatesOf st, uidOf c ∉ st.blobs) :
    ∀ r ∈ (scrubDeletedCoreDocumentVersionsCheck env st).st.docs, r.status = "deleted" →
      hasMoreRecentSameHash (scrubDeletedCoreDocumentVersionsCheck env st).st.docs r.data_source
        r.document_id r.hash r.created = true := by
  obtain ⟨-, hrc, -, hsteq⟩ := scrubCheck_ok_spec env st herr
  intro r hr hrdel
  have hstep := runChunks_stepSt env
    (chunksOf (candidatesOf st).length (candidatesOf st)) st []
  have hrin : r ∈ st.docs := hstep.1 r (hsteq ▸ hr)
  have hrcand : r ∈ candidatesOf st :=
    List.mem_filter.2 ⟨hrin, by simp [hrdel]⟩
  have hdel : ∀ c ∈ candidatesOf st, c.status = "deleted" := by
    intro c hc
    have hb := (List.mem_filter.1 hc).2
    simpa using hb
  have hall := runChunks_sound env st (candidatesOf st) hdel hinj hablob
    (chunksOf (candidatesOf st).length (candidatesOf st)) st []
    (fun ch hch c hc => chunksOf_mem_sub _ _ ch hch c hc)
    (fun n hn => hn)
    (fun u hu => absurd hu (List.not_mem_nil u))
    hrc
  have hrj : r ∈ (chunksOf (candidatesOf st).length (candidatesOf st)).flatten := by
    rw [chunksOf_join _ _ le_rfl]
    exact hrcand
  obtain ⟨ch, hch, hrch⟩ := List.mem_flatten.1 hrj
  have hh := hall ch hch r hrch
  rw [← hsteq] at hh
  rcases hh with hh | hh
  · exact absurd hr hh
  · exact hh

theorem processSeq_all_live (env : Env) (stF : St) :
    ∀ (pairs : List (SyncRes × DocRow)),
      (∀ p ∈ pairs, p.1 = SyncRes.go ∧
        hasMoreRecentSameHash stF.docs p.2.data_source p.2.document_id p.2.hash
          p.2.created = true) →
      ∀ (seen : List String),
        processSeq env pairs stF seen =
          { st := stF, seen := seen,
            outs := pairs.map fun p =>
              { res := UnitRes.skipLive,
                ops := [Op.liveQuery p.2.data_source p.2.document_id p.2.hash
                  p.2.created] } } := by
  intro pairs
  induction pairs with
  | nil =>
      intro h seen
      rfl
  | cons q rest ih =>
      intro h seen
      obtain ⟨sr, d⟩ := q
      have h0 := h (sr, d) (List.mem_cons_self _ _)
      have hsr : sr = SyncRes.go := h0.1
      subst hsr
      have hbody := body_live_eq env stF seen d.data_source d.document_id
        d.created d.hash h0.2
      simp only [processSeq, processUnit]
      rw [hbody]
      dsimp only
      rw [ih (fun p hp => h p (List.mem_cons_of_mem _ hp)) seen]
      rfl

theorem firstErr_map_skipLive (l : List (SyncRes × DocRow))
    (f : SyncRes × DocRow → List Op) :
    firstErr (l.map fun p => { res := UnitRes.skipLive, ops := f p }) = none := by
  rw [firstErr_none_iff]
  intro o ho e
  rcases List.mem_map.1 ho with ⟨p, -, hp⟩
  rw [← hp]
  simp

theorem runChunks_all_live (env : Env) (stF : St)
    (hb : env.cfg.DUST_DATA_SOURCES_BUCKET ≠ none)
    (hsa : env.cfg.SERVICE_ACCOUNT ≠ none) :
    ∀ (fuel : Nat) (cands : List DocRow), cands.length ≤ fuel →
      (∀ c ∈ cands, hasMoreRecentSameHash stF.docs c.data_source c.document_id
        c.hash c.created = true) →
      runChunks env (chunksOf fuel cands) stF [] =
        { st := stF, seen := [],
          outs := cands.map fun c =>
            { res := UnitRes.skipLive,
              ops := [Op.liveQuery c.data_source c.document_id c.hash c.created] },
          err := none } := by
  intro fuel
  induction fuel with
  | zero =>
      intro cands hl hlive
      have hnil : cands = [] := List.length_eq_zero.1 (Nat.le_zero.1 hl)
      subst hnil
      rfl
  | succ fuel ih =>
      intro cands hl hlive
      cases cands with
      | nil => rfl
      | cons d rest =>
          have hpairs : ∀ p ∈ (((d :: rest).take 32).map
              fun d' => (syncCheck env [] d', d')),
              p.1 = SyncRes.go ∧
              hasMoreRecentSameHash stF.docs p.2.data_source p.2.document_id
                p.2.hash p.2.created = true := by
            intro p hp
            rcases List.mem_map.1 hp with ⟨d', hd', hd''⟩
            subst hd''
            exact ⟨syncCheck_nil_go hb hsa,
              hlive d' (List.take_subset 32 (d :: rest) hd')⟩
          have hseq := processSeq_all_live env stF _ hpairs []
          show runChunks env (((d :: rest).take 32) ::
            chunksOf fuel ((d :: rest).drop 32)) stF [] = _
          simp only [runChunks, processChunk]
          rw [hseq]
          dsimp only
          rw [firstErr_map_skipLive]
          dsimp only
          rw [ih ((d :: rest).drop 32)
            (by simp only [List.length_drop, List.length_cons] at hl ⊢; omega)
            (fun c hc => hlive c (List.drop_subset 32 (d :: rest) hc))]
          dsimp only
          rw [List.map_map]
          have hcomp : ((fun p : SyncRes × DocRow =>
              ({ res := UnitRes.skipLive,
                 ops := [Op.liveQuery p.2.data_source p.2.document_id p.2.hash
                   p.2.created] } : UnitOutcome)) ∘
              fun d' => (syncCheck env [] d', d')) =
              fun c : DocRow =>
              ({ res := UnitRes.skipLive,
                 ops := [Op.liveQuery c.data_source c.document_id c.hash
                   c.created] } : UnitOutcome) := rfl
          rw [hcomp, ← List.map_append, List.take_append_drop]

theorem scrubCheck_ok_env (env : Env) (st : St)
    (herr : (scrubDeletedCoreDocumentVersionsCheck env st).err = none) (hcands : candidatesOf st ≠ []) :
    env.cfg.DUST_DATA_SOURCES_BUCKET ≠ none ∧ env.cfg.SERVICE_ACCOUNT ≠ none := by
  have hgen : ¬(env.cfg.DUST_DATA_SOURCES_BUCKET = none ∨
      env.cfg.SERVICE_ACCOUNT = none) := by
    intro hor
    obtain ⟨-, hrc, -, -⟩ := scrubCheck_ok_spec env st herr
    obtain ⟨d, rest, hdr⟩ := List.exists_cons_of_ne_nil hcands
    have hchunks : chunksOf (candidatesOf st).length (candidatesOf st) =
        ((d :: rest).take 32) :: chunksOf rest.length ((d :: rest).drop 32) := by
      rw [hdr]
      rfl
    exact absurd hrc
      ((runChunks_envfail env hor
        (chunksOf (candidatesOf st).length (candidatesOf st)) st []).2.2
        _ _ hchunks (by simp))
  exact ⟨fun h => hgen (Or.inl h), fun h => hgen (Or.inr h)⟩

theorem countPurged_map_skipLive (l : List DocRow) (f : DocRow → List Op) :
    countPurged (l.map fun c => { res := UnitRes.skipLive, ops := f c }) = 0 := by
  induction l with
  | nil => rfl
  | cons c rest ih =>
      simp [countPurged, List.filter_cons]

theorem scrubCheck_second_run (env : Env) (stF : St)
    (hdb : env.cfg.CORE_DATABASE_URI ≠ none)
    (henv : candidatesOf stF ≠ [] →
      env.cfg.DUST_DATA_SOURCES_BUCKET ≠ none ∧ env.cfg.SERVICE_ACCOUNT ≠ none)
    (hlive : ∀ c ∈ candidatesOf stF, hasMoreRecentSameHash stF.docs c.data_source
      c.document_id c.hash c.created = true) :
    scrubDeletedCoreDocumentVersionsCheck env stF =
      { st := stF, fetched := true,
        units := (candidatesOf stF).map fun c =>
          { res := UnitRes.skipLive,
            ops := [Op.liveQuery c.data_source c.document_id c.hash c.created] },
        reported := some none, err := none } := by
  by_cases hcl : candidatesOf stF = []
  · simp only [scrubDeletedCoreDocumentVersionsCheck, if_neg hdb]
    rw [hcl]
    rfl
  · obtain ⟨hb, hsa⟩ := henv hcl
    have hrc := runChunks_all_live env stF hb hsa (candidatesOf stF).length
      (candidatesOf stF) le_rfl hlive
    simp only [scrubDeletedCoreDocumentVersionsCheck, if_neg hdb]
    rw [hrc]

/-! Claim C5. -/

/-- C5 as stated is false on the code: the dedup key is the string
`` `${data_source}-${document_id}-${hash}` ``, so the two distinct
triples `(1, "a", "b-c")` and `(1, "a-b", "c")` share the key
`1-a-b-c`.  In `stCollide` they land in different chunks of an
error-free first run: the first purges and the second is skipped as a
"duplicate", leaving its deleted row behind with no live hash match —
and the second run purges one more unit and changes the metadata
store. -/
theorem c5_counterexample :
    (scrubDeletedCoreDocumentVersionsCheck env0 stCollide).err = none ∧
    countPurged (scrubDeletedCoreDocumentVersionsCheck env0 (scrubDeletedCoreDocumentVersionsCheck env0 stCollide).st).units = 1 ∧
    (scrubDeletedCoreDocumentVersionsCheck env0 (scrubDeletedCoreDocumentVersionsCheck env0 stCollide).st).st ≠
      (scrubDeletedCoreDocumentVersionsCheck env0 stCollide).st := by
  refine ⟨?_, ?_, ?_⟩ <;> decide

/-- C5 (amended): after an error-free run whose candidates have
collision-free dedup keys — distinct candidate triples get distinct
keys, and no key equals a blob-object name (true in particular whenever
content hashes contain no dash) — a second run against the resulting
state changes nothing: it completes without error, every unit is
skipped by the liveness check, zero units are purged, no blob delete is
issued, and the stores are unchanged. -/
theorem c5_second_run_noop (env : Env) (st : St)
    (herr : (scrubDeletedCoreDocumentVersionsCheck env st).err = none)
    (hinj : ∀ c₁ ∈ candidatesOf st, ∀ c₂ ∈ candidatesOf st,
      uidOf c₁ = uidOf c₂ → tripleOf c₁ = tripleOf c₂)
    (hablob : ∀ c ∈ candidatesOf st, uidOf c ∉ st.blobs) :
    (scrubDeletedCoreDocumentVersionsCheck env (scrubDeletedCoreDocumentVersionsCheck env st).st).st = (scrubDeletedCoreDocumentVersionsCheck env st).st ∧
    (scrubDeletedCoreDocumentVersionsCheck env (scrubDeletedCoreDocumentVersionsCheck env st).st).err = none ∧
    countPurged (scrubDeletedCoreDocumentVersionsCheck env (scrubDeletedCoreDocumentVersionsCheck env st).st).units = 0 ∧
    ∀ o ∈ (scrubDeletedCoreDocumentVersionsCheck env (scrubDeletedCoreDocumentVersionsCheck env st).st).units,
      o.res = UnitRes.skipLive ∧ ∀ f, Op.blobDelete f ∉ o.ops := by
  have hdb : env.cfg.CORE_DATABASE_URI ≠ none := by
    intro hdb
    have habort : (scrubDeletedCoreDocumentVersionsCheck env st).err = some RunErr.envDb := by
      simp [scrubDeletedCoreDocumentVersionsCheck, hdb]
    rw [habort] at herr
    exact Option.noConfusion herr
  have hstep := scrubCheck_stepSt env st
  have henv : candidatesOf (scrubDeletedCoreDocumentVersionsCheck env st).st ≠ [] →
      env.cfg.DUST_DATA_SOURCES_BUCKET ≠ none ∧
      env.cfg.SERVICE_ACCOUNT ≠ none := by
    intro hne
    refine scrubCheck_ok_env env st herr ?_
    obtain ⟨c, rest, hcr⟩ := List.exists_cons_of_ne_nil hne
    have hc : c ∈ candidatesOf (scrubDeletedCoreDocumentVersionsCheck env st).st := by
      rw [hcr]
      exact List.mem_cons_self _ _
    have hcdocs : c ∈ (scrubDeletedCoreDocumentVersionsCheck env st).st.docs := (List.mem_filter.1 hc).1
    have hcdel : c.status = "deleted" := by
      simpa using (List.mem_filter.1 hc).2
    intro hnil
    have hcin : c ∈ candidatesOf st :=
      List.mem_filter.2 ⟨hstep.1 c hcdocs, by simp [hcdel]⟩
    rw [hnil] at hcin
    exact absurd hcin (List.not_mem_nil c)
  have hlive : ∀ c ∈ candidatesOf (scrubDeletedCoreDocumentVersionsCheck env st).st,
      hasMoreRecentSameHash (scrubDeletedCoreDocumentVersionsCheck env st).st.docs c.data_source
        c.document_id c.hash c.created = true := by
    intro c hc
    exact scrubCheck_live_covered env st herr hinj hablob c
      (List.mem_filter.1 hc).1 (by simpa using (List.mem_filter.1 hc).2)
  have hrun := scrubCheck_second_run env (scrubDeletedCoreDocumentVersionsCheck env st).st hdb henv hlive
  rw [hrun]
  refine ⟨rfl, rfl, countPurged_map_skipLive _ _, ?_⟩
  intro o ho
  rcases List.mem_map.1 ho with ⟨c, -, hc⟩
  rw [← hc]
  exact ⟨rfl, by simp⟩

/-- Witness for the amended C5 at a concrete error-free run. -/
theorem c5_witness :
    (scrubDeletedCoreDocumentVersionsCheck env0 (scrubDeletedCoreDocumentVersionsCheck env0 stOne).st).st = (scrubDeletedCoreDocumentVersionsCheck env0 stOne).st ∧
    countPurged (scrubDeletedCoreDocumentVersionsCheck env0 (scrubDeletedCoreDocumentVersionsCheck env0 stOne).st).units = 0 :=
  ⟨(c5_second_run_noop env0 stOne (by decide) (by decide) (by decide)).1,
   (c5_second_run_noop env0 stOne (by decide) (by decide) (by decide)).2.2.1⟩

end Dust
